import Mathlib

/-!
Shallow embedding of the YTDASH download-queue core and its support stores
(credential vault, session registry), translated from:
  src/download/queue.py      (DownloadQueue)
  src/download/models.py     (DownloadStatus, ProgressUpdate)
  src/download/downloader.py (VideoDownloader._progress_hook)
  src/auth/session.py        (SessionManager)
  src/auth/cookie_manager.py (CookieManager)
  src/routes/video.py        (initiate_download / cancel_download routes)

Conventions of the embedding:
- Python `dict` objects keyed by ids become association lists `List (Nat × α)`
  with insertion-order-preserving replace (`alist_set`), in-place field update
  (`alist_upd`, a no-op on a missing key, mirroring the `if key in dict` guards
  in the source) and delete (`alist_del`).
- `uuid.uuid4()` id generation is modelled as a fresh-supply counter (`nextId`
  / `nextSid`); freshness of generated ids is stated relative to the invariant
  that every stored id is below the counter.
- `datetime.utcnow()` timestamps are abstract clock ticks (`Nat`); the unit
  ("hours" in the source) is irrelevant to the claims.
- Python float quantities (progress percentages, byte counts) are rationals.
- Python truthiness of optional strings (`bool(user_id)`,
  `not metadata.get('user_id')`) is modelled by `py_truthy`; truthiness of
  optional numbers (`total_bytes or total_bytes_estimate`, `if total:`) by
  `py_or_num` / the explicit zero tests below.
- Exceptions become `Except PyErr`; the distinct constructors of `PyErr`
  record the exception class raised (cryptography's `InvalidToken`,
  json/deserialization errors, pydantic validation errors, and the
  application's classified `EncryptionError`).
-/

/-- Association-list lookup, modelling `d[k]` / `d.get(k)` on a Python dict. -/
def alist_get {α : Type} : List (Nat × α) → Nat → Option α
  | [], _ => none
  | p :: ps, k => if p.1 = k then some p.2 else alist_get ps k

/-- Association-list insert/replace, modelling `d[k] = v` on a Python dict. -/
def alist_set {α : Type} : List (Nat × α) → Nat → α → List (Nat × α)
  | [], k, v => [(k, v)]
  | p :: ps, k, v => if p.1 = k then (k, v) :: ps else p :: alist_set ps k v

/-- Association-list delete, modelling `del d[k]`. -/
def alist_del {α : Type} : List (Nat × α) → Nat → List (Nat × α)
  | [], _ => []
  | p :: ps, k => if p.1 = k then alist_del ps k else p :: alist_del ps k

/-- In-place update of the value stored at key `k` (a no-op when `k` is
absent), modelling `if k in d: mutate d[k]`. -/
def alist_upd {α : Type} : List (Nat × α) → Nat → (α → α) → List (Nat × α)
  | [], _, _ => []
  | p :: ps, k, f =>
    if p.1 = k then (p.1, f p.2) :: alist_upd ps k f
    else p :: alist_upd ps k f

/-- Python truthiness of an optional string: `None` and `""` are falsy. -/
def py_truthy : Option String → Bool
  | none => false
  | some s => !s.isEmpty

/-- Python `a or b` on optional numbers: `None` and `0` are falsy. -/
def py_or_num (a b : Option ℚ) : Option ℚ :=
  match a with
  | none => b
  | some x => if x = 0 then b else some x

/-- Exception classes relevant to the embedded code. `invalidToken` is
cryptography's `InvalidToken`; `jsonError` a `json` deserialization failure;
`validationError` a pydantic `ValidationError`; `encryptionError` the
application's classified `EncryptionError` from `utils/errors.py`. -/
inductive PyErr : Type
  | invalidToken : PyErr
  | jsonError : PyErr
  | validationError : PyErr
  | encryptionError (message : String) : PyErr
deriving DecidableEq

/-- `DownloadStatus` enumeration from src/download/models.py. -/
inductive DownloadStatus : Type
  | pending
  | downloading
  | processing
  | completed
  | failed
  | cancelled
deriving DecidableEq

/-- The statuses the spec calls terminal. -/
def DownloadStatus.isTerminal : DownloadStatus → Bool
  | .completed => true
  | .failed => true
  | .cancelled => true
  | _ => false

/-- `ProgressUpdate` pydantic model from src/download/models.py.  The
`progress` field carries `Field(ge=0.0, le=100.0)`; construction through
pydantic is modelled by `mkProgressUpdate` below, which enforces that bound. -/
structure ProgressUpdate : Type where
  download_id : Nat
  status : DownloadStatus
  progress : ℚ
  downloaded_bytes : Option ℚ
  total_bytes : Option ℚ
  speed : Option ℚ
  eta : Option ℚ
  filename : Option String
  error : Option String
deriving DecidableEq

/-- Pydantic constructor for `ProgressUpdate`: validation rejects a progress
percentage outside `[0, 100]` (raising a `ValidationError`, i.e. `none`). -/
def mkProgressUpdate (download_id : Nat) (status : DownloadStatus)
    (progress : ℚ) (downloaded_bytes total_bytes speed eta : Option ℚ)
    (filename : Option String) (error : Option String) :
    Option ProgressUpdate :=
  if 0 ≤ progress ∧ progress ≤ 100 then
    some ⟨download_id, status, progress, downloaded_bytes, total_bytes,
          speed, eta, filename, error⟩
  else none

/-- The progress dictionary yt-dlp passes to `_progress_hook`
(src/download/downloader.py): the fields the hook reads via `data.get`. -/
structure HookData : Type where
  hook_status : String
  downloaded_bytes : Option ℚ
  total_bytes : Option ℚ
  total_bytes_estimate : Option ℚ
  speed : Option ℚ
  eta : Option ℚ
  filename : Option String
deriving DecidableEq

/-- `VideoDownloader._progress_hook` (src/download/downloader.py, lines
437-478).  Returns `ok (some pu)` when the hook invokes the callback with
snapshot `pu`, `ok none` when the hook returns without invoking the callback
(a status other than downloading/finished), and `error` when constructing the
pydantic model raises.  `total = data.get('total_bytes') or
data.get('total_bytes_estimate')` and `progress = (downloaded / total * 100)
if total else 0` use Python truthiness, modelled by `py_or_num` and the zero
test. -/
def hook_downloaded (data : HookData) : ℚ := data.downloaded_bytes.getD 0

/-- The hook's local `total = data.get('total_bytes') or
data.get('total_bytes_estimate')` (Python `or`: `None` and `0` falsy). -/
def hook_total (data : HookData) : Option ℚ :=
  py_or_num data.total_bytes data.total_bytes_estimate

/-- The hook's local `progress = (downloaded / total * 100) if total else
0`. -/
def hook_progress (data : HookData) : ℚ :=
  match hook_total data with
  | some t => if t = 0 then 0 else hook_downloaded data / t * 100
  | none => 0

def progress_hook (data : HookData) (download_id : Nat) :
    Except PyErr (Option ProgressUpdate) :=
  if data.hook_status = "downloading" then
    match mkProgressUpdate download_id .downloading (hook_progress data)
        (some (hook_downloaded data)) (hook_total data)
        data.speed data.eta data.filename none with
    | some pu => .ok (some pu)
    | none => .error .validationError
  else if data.hook_status = "finished" then
    match mkProgressUpdate download_id .processing 100
        (some 0) none none none data.filename none with
    | some pu => .ok (some pu)
    | none => .error .validationError
  else .ok none

/-- The plaintext bytes inside a Fernet token: either the JSON serialization
of a cookie dictionary (what `encrypt_cookies` produces via `json.dumps`) or
bytes that do not deserialize to one. -/
inductive PlainData : Type
  | jsonDict (cookies : List (String × String)) : PlainData
  | notJson (raw : String) : PlainData
deriving DecidableEq

/-- A Fernet ciphertext: either a well-formed token produced under some key,
or malformed bytes.  A token produced under a different key, or `garbage`,
fails authentication on decrypt. -/
inductive FernetToken : Type
  | token (key : Nat) (plaintext : PlainData) : FernetToken
  | garbage (raw : String) : FernetToken
deriving DecidableEq

/-- `Fernet.encrypt`: authenticated encryption under `key`. -/
def fernet_encrypt (key : Nat) (plaintext : PlainData) : FernetToken :=
  .token key plaintext

/-- `Fernet.decrypt`: raises cryptography's `InvalidToken` when the
ciphertext is malformed or its authentication tag does not verify under
`key` (tampered / produced under another key). -/
def fernet_decrypt (key : Nat) : FernetToken → Except PyErr PlainData
  | .token k plaintext => if k = key then .ok plaintext else .error .invalidToken
  | .garbage _ => .error .invalidToken

/-- `json.loads` on decrypted bytes: fails unless the bytes are the
serialization of a cookie dictionary. -/
def json_loads : PlainData → Except PyErr (List (String × String))
  | .jsonDict cookies => .ok cookies
  | .notJson _ => .error .jsonError

/-- `CookieManager.encrypt_cookies` (src/auth/cookie_manager.py, lines
46-70): `json.dumps` then encrypt.  Serialization of a string-to-string dict
cannot fail, so the `except` branch is unreachable. -/
def encrypt_cookies (cipher_key : Nat) (cookies : List (String × String)) :
    FernetToken :=
  fernet_encrypt cipher_key (.jsonDict cookies)

/-- `CookieManager.decrypt_cookies` (src/auth/cookie_manager.py, lines
72-99): decrypt, then `json.loads`; `except InvalidToken` re-raises the
classified `EncryptionError "Invalid encryption token"`, and the catch-all
`except Exception` re-raises any other failure (e.g. the json error) as a
classified `EncryptionError` as well. -/
def decrypt_cookies (cipher_key : Nat) (encrypted_cookies : FernetToken) :
    Except PyErr (List (String × String)) :=
  match fernet_decrypt cipher_key encrypted_cookies with
  | .error .invalidToken => .error (.encryptionError "Invalid encryption token")
  | .error _ => .error (.encryptionError "Failed to decrypt cookies")
  | .ok decrypted =>
    match json_loads decrypted with
    | .ok cookies => .ok cookies
    | .error _ => .error (.encryptionError "Failed to decrypt cookies")

/-- Cookie metadata record stored in `CookieManager._metadata`. -/
structure CookieMeta : Type where
  created_at : Nat
  last_accessed : Nat
  expires_at : Nat
deriving DecidableEq

/-- State of a `CookieManager` (src/auth/cookie_manager.py): the cipher key,
the encrypted-blob store `_cookie_store` and the metadata map `_metadata`,
both keyed by session id. -/
structure CookieState : Type where
  cipher_key : Nat
  _cookie_store : List (Nat × FernetToken)
  _metadata : List (Nat × CookieMeta)
deriving DecidableEq

/-- A fresh `CookieManager` with the given key. -/
def CookieState.init (cipher_key : Nat) : CookieState :=
  ⟨cipher_key, [], []⟩

/-- `CookieManager.store_cookies` (lines 101-133): encrypt, store the blob,
store fresh metadata with expiry `now + expires_in_hours`. -/
def store_cookies (st : CookieState) (session_id : Nat)
    (cookies : List (String × String)) (expires_in_hours : Nat) (now : Nat) :
    CookieState :=
  let encrypted := encrypt_cookies st.cipher_key cookies
  { st with
    _cookie_store := alist_set st._cookie_store session_id encrypted
    _metadata := alist_set st._metadata session_id
      ⟨now, now, now + expires_in_hours⟩ }

/-- `CookieManager.delete_cookies` (lines 171-187): deletes the blob and the
metadata, but only when the blob exists; returns whether anything was
deleted. -/
def delete_cookies (st : CookieState) (session_id : Nat) :
    Bool × CookieState :=
  match alist_get st._cookie_store session_id with
  | some _ =>
    (true,
     { st with
       _cookie_store := alist_del st._cookie_store session_id
       _metadata := alist_del st._metadata session_id })
  | none => (false, st)

/-- `CookieManager.retrieve_cookies` (lines 135-169): absent blob returns
`none`; expired metadata triggers lazy deletion and returns `none`;
otherwise decrypt (any decryption failure is caught and `none` returned)
and update `last_accessed`. -/
def retrieve_cookies (st : CookieState) (session_id : Nat) (now : Nat) :
    Option (List (String × String)) × CookieState :=
  match alist_get st._cookie_store session_id with
  | none => (none, st)
  | some encrypted =>
    let metadata := alist_get st._metadata session_id
    if metadata.elim false (fun m => decide (m.expires_at < now)) then
      (none, (delete_cookies st session_id).2)
    else
      match decrypt_cookies st.cipher_key encrypted with
      | .ok cookies =>
        (some cookies,
         { st with
           _metadata :=
             alist_upd st._metadata session_id
               (fun m => { m with last_accessed := now }) })
      | .error _ => (none, st)

/-- `CookieManager.is_expired` (lines 189-202): true when the metadata is
absent or past expiry. -/
def cookie_is_expired (st : CookieState) (session_id : Nat) (now : Nat) :
    Bool :=
  match alist_get st._metadata session_id with
  | none => true
  | some m => m.expires_at < now

/-- `CookieManager.cleanup_expired` (lines 222-241): collect the expired
session ids from `_metadata`, delete each, return the count. -/
def cookie_cleanup_expired (st : CookieState) (now : Nat) :
    Nat × CookieState :=
  let expired :=
    (st._metadata.filter (fun p => p.2.expires_at < now)).map (fun p => p.1)
  (expired.length,
   expired.foldl (fun acc sid => (delete_cookies acc sid).2) st)

/-- A session record, the dict stored in `SessionManager._sessions`
(src/auth/session.py, lines 42-51). -/
structure SessionData : Type where
  session_id : Nat
  user_id : Option String
  user_email : Option String
  created_at : Nat
  last_activity : Nat
  expires_at : Nat
  authenticated : Bool
  active_downloads : List Nat
deriving DecidableEq

/-- State of a `SessionManager`: the session map plus the fresh-id supply
modelling `uuid.uuid4()`. -/
structure SessionState : Type where
  _sessions : List (Nat × SessionData)
  nextSid : Nat
deriving DecidableEq

/-- A fresh `SessionManager`. -/
def SessionState.init : SessionState := ⟨[], 0⟩

/-- `SessionManager.create_session` (src/auth/session.py, lines 22-54):
generates a fresh id, stores a record with an empty `active_downloads` list,
`expires_at = now + timeout_hours`, and `authenticated = bool(user_id)`
(Python truthiness: `None` and `""` are both falsy). -/
def create_session (st : SessionState) (user_id user_email : Option String)
    (timeout_hours : Nat) (now : Nat) : Nat × SessionState :=
  let session_id := st.nextSid
  (session_id,
   { _sessions :=
       alist_set st._sessions session_id
         ⟨session_id, user_id, user_email, now, now, now + timeout_hours,
          py_truthy user_id, []⟩
     nextSid := st.nextSid + 1 })

/-- `SessionManager.delete_session` (lines 103-118). -/
def delete_session (st : SessionState) (session_id : Nat) :
    Bool × SessionState :=
  match alist_get st._sessions session_id with
  | some _ => (true, { st with _sessions := alist_del st._sessions session_id })
  | none => (false, st)

/-- `SessionManager.get_session` (lines 56-80): absent id returns `none`;
a session past expiry (`expires_at < now`) is lazily deleted and `none`
returned; otherwise `last_activity` is updated and the record returned. -/
def get_session (st : SessionState) (session_id : Nat) (now : Nat) :
    Option SessionData × SessionState :=
  match alist_get st._sessions session_id with
  | none => (none, st)
  | some s =>
    if s.expires_at < now then (none, (delete_session st session_id).2)
    else
      let s' := { s with last_activity := now }
      (some s', { st with _sessions := alist_set st._sessions session_id s' })

/-- `SessionManager.add_download` (lines 133-152): via `get_session`;
appends `download_id` to the session's `active_downloads` unless already
present. -/
def session_add_download (st : SessionState) (session_id download_id : Nat)
    (now : Nat) : Bool × SessionState :=
  match get_session st session_id now with
  | (none, st') => (false, st')
  | (some s, st') =>
    if s.active_downloads.contains download_id then (true, st')
    else
      (true,
       { st' with
         _sessions :=
           alist_set st'._sessions session_id
             { s with active_downloads := s.active_downloads ++ [download_id] } })

/-- `SessionManager.remove_download` (lines 154-173): via `get_session`;
removes the first occurrence of `download_id` from `active_downloads` when
present. -/
def session_remove_download (st : SessionState) (session_id download_id : Nat)
    (now : Nat) : Bool × SessionState :=
  match get_session st session_id now with
  | (none, st') => (false, st')
  | (some s, st') =>
    if s.active_downloads.contains download_id then
      (true,
       { st' with
         _sessions :=
           alist_set st'._sessions session_id
             { s with active_downloads := s.active_downloads.erase download_id } })
    else (true, st')

/-- `SessionManager.get_active_download_count` (lines 175-186). -/
def get_active_download_count (st : SessionState) (session_id : Nat)
    (now : Nat) : Nat × SessionState :=
  match get_session st session_id now with
  | (none, st') => (0, st')
  | (some s, st') => (s.active_downloads.length, st')

/-- `FormatType` enumeration from src/download/models.py. -/
inductive FormatType : Type
  | video
  | audio
  | both
deriving DecidableEq

/-- `DownloadRequest` (src/download/models.py): the fields the queue, the
history writer and the routes consume. -/
structure DownloadRequest : Type where
  url : String
  format_type : FormatType
  format_id : Option String
  quality : Option String
  session_id : Option Nat
deriving DecidableEq

/-- The per-download metadata dict created by `DownloadQueue.add_download`
(src/download/queue.py, lines 217-227); `file_name` is added later by the
worker on completion. -/
structure JobMeta : Type where
  download_id : Nat
  session_id : Option Nat
  user_id : Option String
  url : String
  status : DownloadStatus
  created_at : Nat
  completed_at : Option Nat
  output_file : Option String
  file_name : Option String
  error : Option String
deriving DecidableEq

/-- A row of the `downloads` history table (models/download_history.py), as
written by `DownloadQueue._save_history`. -/
structure HistoryRecord : Type where
  download_id : Nat
  user_id : Option String
  youtube_url : String
  format_type : FormatType
  quality : Option String
  format_id : Option String
  status : DownloadStatus
  error_message : Option String
  file_path : Option String
  file_name : Option String
  completed_at : Option Nat
deriving DecidableEq

/-- Combined in-memory state of the system: the `DownloadQueue` fields
(`downloads`, `progress`, the FIFO `queue`, and `running` — the jobs
currently held by a worker between dequeue and the `finally` block), the
`SessionManager` state, the history database table, a ghost log `invoked` of
every job for which `downloader.download_video` was invoked, the fresh-id
supply `nextId`, and the clock `now`. -/
structure SysState : Type where
  maxConcurrent : Nat
  downloads : List (Nat × JobMeta)
  progress : List (Nat × ProgressUpdate)
  queue : List (Nat × DownloadRequest × Option String)
  running : List (Nat × DownloadRequest)
  invoked : List Nat
  history : List HistoryRecord
  sessions : SessionState
  nextId : Nat
  now : Nat
deriving DecidableEq

/-- Empty system as built at startup, with `max_concurrent` worker slots. -/
def SysState.init (maxConcurrent : Nat) : SysState :=
  ⟨maxConcurrent, [], [], [], [], [], [], SessionState.init, 0, 0⟩

/-- `DownloadQueue._update_status` (src/download/queue.py, lines 304-316):
sets the status in the metadata dict and in the stored progress snapshot,
each guarded by key presence, with no check of the current status. -/
def update_status (st : SysState) (download_id : Nat)
    (status : DownloadStatus) : SysState :=
  { st with
    downloads := alist_upd st.downloads download_id
      (fun m => { m with status := status })
    progress := alist_upd st.progress download_id
      (fun pu => { pu with status := status }) }

/-- `DownloadQueue._update_progress` (lines 318-330): stores the snapshot
wholesale and mirrors its status into the metadata dict. -/
def update_progress (st : SysState) (download_id : Nat)
    (progress : ProgressUpdate) : SysState :=
  { st with
    progress := alist_set st.progress download_id progress
    downloads := alist_upd st.downloads download_id
      (fun m => { m with status := progress.status }) }

/-- `DownloadQueue.add_download` (lines 191-240): generates a fresh id,
creates the pending metadata record and the zeroed pending
`ProgressUpdate`, and appends `(download_id, request, cookies)` to the FIFO
queue.  `queue.put_nowait` on the unbounded `asyncio.Queue()` never raises
`QueueFull`, so the operation is total and `QueueFullError` is never
raised. -/
def add_download (st : SysState) (request : DownloadRequest)
    (session_id : Option Nat) (cookies : Option String)
    (user_id : Option String) : Nat × SysState :=
  let download_id := st.nextId
  (download_id,
   { st with
     downloads := alist_set st.downloads download_id
       ⟨download_id, session_id, user_id, request.url, .pending,
        st.now, none, none, none, none⟩
     progress := alist_set st.progress download_id
       ⟨download_id, .pending, 0, some 0, none, none, none, none, none⟩
     queue := st.queue ++ [(download_id, request, cookies)]
     nextId := st.nextId + 1 })

/-- `DownloadQueue.cancel_download` (lines 278-302): false when the id is
unknown; false when the status is COMPLETED or FAILED (CANCELLED is not in
that list); otherwise sets the status to CANCELLED and a completion
timestamp and returns true. -/
def cancel_download (st : SysState) (download_id : Nat) : Bool × SysState :=
  match alist_get st.downloads download_id with
  | none => (false, st)
  | some m =>
    if m.status = .completed ∨ m.status = .failed then (false, st)
    else
      (true,
       { update_status st download_id .cancelled with
         downloads :=
           alist_upd (update_status st download_id .cancelled).downloads
             download_id (fun m' => { m' with completed_at := some st.now }) })

/-- `DownloadQueue._save_history` (lines 140-189): skipped when the metadata
is missing or its `user_id` is falsy; skipped when a record with this
`download_id` already exists (idempotent insert); otherwise appends one row
built from the metadata and the request. -/
def save_history (downloads : List (Nat × JobMeta))
    (history : List HistoryRecord) (download_id : Nat)
    (request : DownloadRequest) : List HistoryRecord :=
  match alist_get downloads download_id with
  | none => history
  | some m =>
    if !py_truthy m.user_id then history
    else if history.any (fun r => r.download_id = download_id) then history
    else
      history ++
        [⟨download_id, m.user_id, request.url, request.format_type,
          request.quality, request.format_id, m.status, m.error,
          m.output_file, m.file_name, m.completed_at⟩]

/-- Events of the system: the HTTP routes (`initiate_download`,
`cancel_download` from src/routes/video.py, `create_session` wherever a
session is minted), the interleaving points of the worker coroutines in
`DownloadQueue._worker` (dequeue, a progress-hook callback, successful or
failed completion of `download_video`), and a clock tick. -/
inductive Ev : Type
  | apiDownload (request : DownloadRequest) (cookies : Option String)
  | apiCancel (download_id : Nat) (session_id : Option Nat)
  | mkSession (user_id user_email : Option String) (timeout_hours : Nat)
  | pickup
  | hookFire (download_id : Nat) (data : HookData)
  | finishOk (download_id : Nat) (output_file : String)
  | finishErr (download_id : Nat) (message : String)
  | tick
deriving DecidableEq

/-- The `initiate_download` route (src/routes/video.py, lines 110-185): with
a session id, the session must exist (else 401 — the `get_session` side
effects persist) and have fewer than 3 active downloads (else 429); then
`add_download` is called with the session's `user_id`, and the new id is
appended to the session's active set. -/
def api_download (st : SysState) (request : DownloadRequest)
    (cookies : Option String) : SysState :=
  match request.session_id with
  | none => (add_download st request none cookies none).2
  | some sid =>
    match get_session st.sessions sid st.now with
    | (none, ses) => { st with sessions := ses }
    | (some s, ses) =>
      match get_active_download_count ses sid st.now with
      | (cnt, ses₂) =>
        if 3 ≤ cnt then { st with sessions := ses₂ }
        else
          match add_download { st with sessions := ses₂ } request (some sid)
              cookies s.user_id with
          | (did, st') =>
            { st' with
              sessions := (session_add_download st'.sessions sid did st'.now).2 }

/-- The `cancel_download` route (src/routes/video.py, lines 232-269): calls
`DownloadQueue.cancel_download`; only on success (otherwise the route raises
404 before reaching it) and when a session id was passed does it call
`SessionManager.remove_download`. -/
def api_cancel (st : SysState) (download_id : Nat)
    (session_id : Option Nat) : SysState :=
  match cancel_download st download_id with
  | (false, st') => st'
  | (true, st') =>
    match session_id with
    | none => st'
    | some sid =>
      { st' with
        sessions := (session_remove_download st'.sessions sid download_id
          st'.now).2 }

/-- One interleaving step of the system.  Worker events that cannot occur in
the given state (dequeue from an empty queue or with all worker slots busy,
a progress callback or completion for a job no worker holds) leave the state
unchanged.  `pickup` is `DownloadQueue._worker` lines 82-99: the worker
takes the queue head, immediately sets the status to DOWNLOADING — with no
check whether the job was cancelled — and invokes
`downloader.download_video` (recorded in the ghost log `invoked`).
`finishOk` / `finishErr` are lines 100-130: set COMPLETED (with output
fields) or FAILED (with the error message), stamp `completed_at`, call
`_save_history`, and release the job in the `finally` block.  `hookFire` is
a yt-dlp progress callback routed through `_progress_hook` into
`_update_progress`; a hook whose pydantic construction raises commits no
snapshot. -/
def step (st : SysState) : Ev → SysState
  | .apiDownload request cookies => api_download st request cookies
  | .apiCancel download_id session_id => api_cancel st download_id session_id
  | .mkSession user_id user_email timeout_hours =>
    { st with
      sessions := (create_session st.sessions user_id user_email
        timeout_hours st.now).2 }
  | .pickup =>
    match st.queue with
    | [] => st
    | (download_id, request, _cookies) :: rest =>
      if st.running.length < st.maxConcurrent then
        { update_status st download_id .downloading with
          queue := rest
          running := st.running ++ [(download_id, request)]
          invoked := st.invoked ++ [download_id] }
      else st
  | .hookFire download_id data =>
    match alist_get st.running download_id with
    | none => st
    | some _ =>
      match progress_hook data download_id with
      | .ok (some pu) => update_progress st download_id pu
      | _ => st
  | .finishOk download_id output_file =>
    match alist_get st.running download_id with
    | none => st
    | some request =>
      let st₁ := update_status st download_id .completed
      let st₂ :=
        { st₁ with
          downloads := alist_upd st₁.downloads download_id
            (fun m =>
              { m with
                output_file := some output_file
                file_name := some output_file
                completed_at := some st.now }) }
      { st₂ with
        history := save_history st₂.downloads st₂.history download_id request
        running := alist_del st₂.running download_id }
  | .finishErr download_id message =>
    match alist_get st.running download_id with
    | none => st
    | some request =>
      let st₁ := update_status st download_id .failed
      let st₂ :=
        { st₁ with
          downloads := alist_upd st₁.downloads download_id
            (fun m =>
              { m with
                error := some message
                completed_at := some st.now }) }
      { st₂ with
        history := save_history st₂.downloads st₂.history download_id request
        running := alist_del st₂.running download_id }
  | .tick => { st with now := st.now + 1 }

/-- Run a trace of events from a state. -/
def run (st : SysState) (evs : List Ev) : SysState :=
  evs.foldl step st

/-- The status recorded for a job in the queue's metadata dict. -/
def statusOf (st : SysState) (download_id : Nat) : Option DownloadStatus :=
  (alist_get st.downloads download_id).map (fun m => m.status)

/-- Coarse rank of a status used by the amended monotonicity claim:
`pending` strictly before the active/cancelled bundle, which is strictly
before the immutable outcomes `completed` and `failed`. -/
def statusRank : DownloadStatus → Nat
  | .pending => 0
  | .downloading => 1
  | .processing => 1
  | .cancelled => 1
  | .completed => 2
  | .failed => 2

/-- Ids currently sitting in the FIFO queue. -/
def queueIds (st : SysState) : List Nat := st.queue.map (fun q => q.1)

/-- Ids currently held by a worker. -/
def runningIds (st : SysState) : List Nat := st.running.map (fun p => p.1)

/-- Reachable-state invariant of the queue system: every tracked id is below
the fresh-id supply; a queued job is pending or cancelled; a job held by a
worker is downloading, processing or cancelled; and no id occurs twice
across the queue and the workers (each job is enqueued once and dequeued by
exactly one worker). -/
def GInv (st : SysState) : Prop :=
  (∀ k, (alist_get st.downloads k).isSome → k < st.nextId) ∧
  (∀ k, k ∈ queueIds st →
    statusOf st k = some .pending ∨ statusOf st k = some .cancelled) ∧
  (∀ k, k ∈ runningIds st →
    statusOf st k = some .downloading ∨ statusOf st k = some .processing ∨
    statusOf st k = some .cancelled) ∧
  (queueIds st ++ runningIds st).Nodup

/-- The credential-vault synchronization invariant of claim C10: the blob
store and the metadata map always hold exactly the same session ids. -/
def cookie_sync (st : CookieState) : Prop :=
  ∀ sid, (alist_get st._cookie_store sid).isSome ↔
    (alist_get st._metadata sid).isSome

theorem alist_get_set_self {α : Type} (l : List (Nat × α)) (k : Nat) (v : α) :
    alist_get (alist_set l k v) k = some v := by
  induction l with
  | nil => simp [alist_get, alist_set]
  | cons p ps ih =>
    obtain ⟨pk, pv⟩ := p
    by_cases h : pk = k
    · subst h; simp [alist_set, alist_get]
    · simp [alist_set, h, alist_get, ih]

theorem alist_get_set_ne {α : Type} (l : List (Nat × α)) (k k' : Nat) (v : α)
    (h : k' ≠ k) : alist_get (alist_set l k v) k' = alist_get l k' := by
  have hkk : ¬ k = k' := fun hh => h hh.symm
  induction l with
  | nil => simp [alist_get, alist_set, hkk]
  | cons p ps ih =>
    obtain ⟨pk, pv⟩ := p
    by_cases hp : pk = k
    · subst hp; simp [alist_set, alist_get, hkk]
    · simp [alist_set, hp, alist_get, ih]

theorem alist_get_del_self {α : Type} (l : List (Nat × α)) (k : Nat) :
    alist_get (alist_del l k) k = none := by
  induction l with
  | nil => simp [alist_get, alist_del]
  | cons p ps ih =>
    obtain ⟨pk, pv⟩ := p
    by_cases h : pk = k
    · subst h; simp [alist_del, ih]
    · simp [alist_del, h, alist_get, ih]

theorem alist_get_del_ne {α : Type} (l : List (Nat × α)) (k k' : Nat)
    (h : k' ≠ k) : alist_get (alist_del l k) k' = alist_get l k' := by
  have hkk : ¬ k = k' := fun hh => h hh.symm
  induction l with
  | nil => simp [alist_del]
  | cons p ps ih =>
    obtain ⟨pk, pv⟩ := p
    by_cases hp : pk = k
    · subst hp; simp [alist_del, alist_get, hkk, ih]
    · simp [alist_del, hp, alist_get, ih]

theorem alist_get_upd_self {α : Type} (l : List (Nat × α)) (k : Nat)
    (f : α → α) : alist_get (alist_upd l k f) k = (alist_get l k).map f := by
  induction l with
  | nil => simp [alist_get, alist_upd]
  | cons p ps ih =>
    obtain ⟨pk, pv⟩ := p
    by_cases h : pk = k
    · subst h; simp [alist_upd, alist_get]
    · simp [alist_upd, h, alist_get, ih]

theorem alist_get_upd_ne {α : Type} (l : List (Nat × α)) (k k' : Nat)
    (f : α → α) (h : k' ≠ k) :
    alist_get (alist_upd l k f) k' = alist_get l k' := by
  have hkk : ¬ k = k' := fun hh => h hh.symm
  induction l with
  | nil => simp [alist_upd]
  | cons p ps ih =>
    obtain ⟨pk, pv⟩ := p
    by_cases hp : pk = k
    · subst hp; simp [alist_upd, alist_get, hkk, ih]
    · simp [alist_upd, hp, alist_get, ih]

theorem alist_get_isSome_mem {α : Type} (l : List (Nat × α)) (k : Nat)
    (h : (alist_get l k).isSome) : k ∈ l.map (fun p => p.1) := by
  induction l with
  | nil => simp [alist_get] at h
  | cons p ps ih =>
    obtain ⟨pk, pv⟩ := p
    by_cases hp : pk = k
    · subst hp; simp
    · simp only [alist_get] at h
      rw [if_neg hp] at h
      simp only [List.map_cons, List.mem_cons]
      exact Or.inr (ih h)

theorem alist_mem_isSome {α : Type} (l : List (Nat × α)) (k : Nat)
    (h : k ∈ l.map (fun p => p.1)) : (alist_get l k).isSome := by
  induction l with
  | nil => simp at h
  | cons p ps ih =>
    obtain ⟨pk, pv⟩ := p
    by_cases hp : pk = k
    · subst hp; simp [alist_get]
    · simp only [alist_get]
      rw [if_neg hp]
      simp only [List.map_cons, List.mem_cons] at h
      rcases h with h | h
      · exact absurd h.symm hp
      · exact ih h

theorem alist_del_sublist {α : Type} (l : List (Nat × α)) (k : Nat) :
    List.Sublist (alist_del l k) l := by
  induction l with
  | nil => simp [alist_del]
  | cons p ps ih =>
    obtain ⟨pk, pv⟩ := p
    by_cases h : pk = k
    · subst h
      simp only [alist_del, if_pos rfl]
      exact ih.cons _
    · simp only [alist_del, if_neg h]
      exact ih.cons₂ _

theorem mkProgressUpdate_eq_some (i : Nat) (s : DownloadStatus) (pr : ℚ)
    (db tb sp et : Option ℚ) (fn er : Option String) (pu : ProgressUpdate)
    (h : mkProgressUpdate i s pr db tb sp et fn er = some pu) :
    pu = ⟨i, s, pr, db, tb, sp, et, fn, er⟩ ∧ 0 ≤ pr ∧ pr ≤ 100 := by
  unfold mkProgressUpdate at h
  split_ifs at h with hb
  · exact ⟨(Option.some.injEq _ _ ▸ h).symm, hb.1, hb.2⟩

theorem progress_hook_ok_some (data : HookData) (i : Nat)
    (pu : ProgressUpdate) (h : progress_hook data i = .ok (some pu)) :
    (pu.status = .downloading ∨ pu.status = .processing) ∧
    0 ≤ pu.progress ∧ pu.progress ≤ 100 := by
  unfold progress_hook at h
  split_ifs at h with h1 h2
  · rcases hmk : mkProgressUpdate i .downloading (hook_progress data)
        (some (hook_downloaded data)) (hook_total data)
        data.speed data.eta data.filename none with _ | pu'
    · rw [hmk] at h; simp at h
    · rw [hmk] at h
      simp only [Except.ok.injEq, Option.some.injEq] at h
      obtain ⟨hpu, h0, h100⟩ := mkProgressUpdate_eq_some _ _ _ _ _ _ _ _ _ _ hmk
      subst h
      rw [hpu]
      exact ⟨Or.inl rfl, h0, h100⟩
  · rcases hmk : mkProgressUpdate i .processing 100 (some 0) none none none
        data.filename none with _ | pu'
    · rw [hmk] at h; simp at h
    · rw [hmk] at h
      simp only [Except.ok.injEq, Option.some.injEq] at h
      obtain ⟨hpu, h0, h100⟩ := mkProgressUpdate_eq_some _ _ _ _ _ _ _ _ _ _ hmk
      subst h
      rw [hpu]
      exact ⟨Or.inr rfl, h0, h100⟩
  · simp at h

theorem statusOf_update_status_self (st : SysState) (i : Nat)
    (s : DownloadStatus) :
    statusOf (update_status st i s) i = (statusOf st i).map (fun _ => s) := by
  rcases h : alist_get st.downloads i with _ | m <;>
    simp [statusOf, update_status, alist_get_upd_self, h]

theorem statusOf_update_status_ne (st : SysState) (i k : Nat)
    (s : DownloadStatus) (h : k ≠ i) :
    statusOf (update_status st i s) k = statusOf st k := by
  simp [statusOf, update_status, alist_get_upd_ne _ _ _ _ h]

/-- Claim C1 (corrected): `cancel_download` returns false only for an
unknown id or a job whose status is COMPLETED or FAILED; CANCELLED is not
in its terminal check, so a job in any other status — including an
already-cancelled one — is set to CANCELLED with a completion timestamp and
true is returned.  Hence cancel does not return true at most once per job. -/
theorem C1_cancel_amended (st : SysState) (download_id : Nat) :
    (alist_get st.downloads download_id = none →
      cancel_download st download_id = (false, st)) ∧
    (∀ m, alist_get st.downloads download_id = some m →
      (m.status = .completed ∨ m.status = .failed) →
      cancel_download st download_id = (false, st)) ∧
    (∀ m, alist_get st.downloads download_id = some m →
      ¬(m.status = .completed ∨ m.status = .failed) →
      (cancel_download st download_id).1 = true ∧
      statusOf (cancel_download st download_id).2 download_id =
        some .cancelled ∧
      (alist_get (cancel_download st download_id).2.downloads
        download_id).map (fun m' => m'.completed_at) = some (some st.now)) := by
  refine ⟨fun h => ?_, fun m hm hs => ?_, fun m hm hs => ?_⟩
  · simp [cancel_download, h]
  · simp [cancel_download, hm, hs]
  · refine ⟨?_, ?_, ?_⟩
    · simp [cancel_download, hm, hs]
    · simp [cancel_download, hm, hs, statusOf, update_status,
        alist_get_upd_self]
    · simp [cancel_download, hm, hs, update_status, alist_get_upd_self]

/-- Witness for C1_cancel_amended at a freshly submitted (pending) job. -/
theorem C1_cancel_amended_witness :
    (cancel_download (add_download (SysState.init 3)
      ⟨"u", .video, none, some "best", none⟩ none none none).2 0).1 = true :=
  ((C1_cancel_amended (add_download (SysState.init 3)
      ⟨"u", .video, none, some "best", none⟩ none none none).2 0).2.2
    ⟨0, none, none, "u", .pending, 0, none, none, none, none⟩
    (by decide) (by decide)).1

/-- Counterexample to claim C1 as stated: after submitting a job and
cancelling it (first cancel returns true and leaves the job CANCELLED — a
terminal state), a second `cancel_download` call returns true again, not
false. -/
theorem C1_counterexample :
    (cancel_download (add_download (SysState.init 3)
        ⟨"u", .video, none, some "best", none⟩ none none none).2 0).1 =
      true ∧
    statusOf (cancel_download (add_download (SysState.init 3)
        ⟨"u", .video, none, some "best", none⟩ none none none).2 0).2 0 =
      some .cancelled ∧
    (cancel_download (cancel_download (add_download (SysState.init 3)
        ⟨"u", .video, none, some "best", none⟩ none none none).2 0).2 0).1 =
      true := by decide

/-- Claim C4 (confirmed): `add_download` is a total function (the unbounded
`asyncio.Queue` makes `put_nowait` infallible, so `QueueFullError` is never
raised): it returns the freshly generated id — unknown to the job map
before the call — records the job with status PENDING, stores the zeroed
PENDING progress snapshot, and appends `(download_id, request, cookies)` at
the tail of the FIFO queue. -/
theorem C4_add_download (st : SysState) (request : DownloadRequest)
    (session_id : Option Nat) (cookies : Option String)
    (user_id : Option String)
    (hfresh : ∀ k, (alist_get st.downloads k).isSome → k < st.nextId) :
    (add_download st request session_id cookies user_id).1 = st.nextId ∧
    alist_get st.downloads st.nextId = none ∧
    alist_get (add_download st request session_id cookies
        user_id).2.downloads st.nextId =
      some ⟨st.nextId, session_id, user_id, request.url, .pending,
            st.now, none, none, none, none⟩ ∧
    alist_get (add_download st request session_id cookies
        user_id).2.progress st.nextId =
      some ⟨st.nextId, .pending, 0, some 0, none, none, none, none, none⟩ ∧
    (add_download st request session_id cookies user_id).2.queue =
      st.queue ++ [(st.nextId, request, cookies)] := by
  refine ⟨rfl, ?_, ?_, ?_, rfl⟩
  · rcases h : alist_get st.downloads st.nextId with _ | m
    · rfl
    · exact absurd (hfresh st.nextId (by simp [h])) (lt_irrefl _)
  · simp [add_download, alist_get_set_self]
  · simp [add_download, alist_get_set_self]

/-- Witness for C4_add_download at the empty initial state. -/
theorem C4_add_download_witness :
    (add_download (SysState.init 3) ⟨"u", .video, none, some "best", none⟩
      none none none).1 = 0 ∧
    (add_download (SysState.init 3) ⟨"u", .video, none, some "best", none⟩
      none none none).2.queue =
      [(0, ⟨"u", .video, none, some "best", none⟩, none)] := by
  have h := C4_add_download (SysState.init 3)
    ⟨"u", .video, none, some "best", none⟩ none none none
    (by intro k hk; simp [SysState.init, alist_get] at hk)
  exact ⟨h.1, by rw [h.2.2.2.2]; rfl⟩

/-- Claim C7 (confirmed): `retrieve_cookies` returns none for an unknown
session id; for a stored record whose expiry is past it deletes blob and
metadata (so a later `is_expired` reports true) and returns none; and for a
record just stored and not yet expired it decrypts the blob back to the
stored cookies and updates the last-accessed timestamp. -/
theorem C7_retrieve (st : CookieState) (session_id : Nat) (now : Nat) :
    (alist_get st._cookie_store session_id = none →
      retrieve_cookies st session_id now = (none, st)) ∧
    (∀ ct m, alist_get st._cookie_store session_id = some ct →
      alist_get st._metadata session_id = some m →
      m.expires_at < now →
      (retrieve_cookies st session_id now).1 = none ∧
      alist_get (retrieve_cookies st session_id now).2._cookie_store
        session_id = none ∧
      alist_get (retrieve_cookies st session_id now).2._metadata
        session_id = none ∧
      cookie_is_expired (retrieve_cookies st session_id now).2
        session_id now = true) ∧
    (∀ cookies expires_in_hours now₀,
      ¬ (now₀ + expires_in_hours < now) →
      (retrieve_cookies (store_cookies st session_id cookies
          expires_in_hours now₀) session_id now).1 = some cookies ∧
      alist_get (retrieve_cookies (store_cookies st session_id cookies
          expires_in_hours now₀) session_id now).2._metadata session_id =
        some ⟨now₀, now, now₀ + expires_in_hours⟩) := by
  refine ⟨fun h => ?_, fun ct m hct hm hexp => ?_,
    fun cookies expires_in_hours now₀ hlive => ?_⟩
  · simp [retrieve_cookies, h]
  · have hdel :
        retrieve_cookies st session_id now =
          (none, (delete_cookies st session_id).2) := by
      simp [retrieve_cookies, hct, hm, hexp]
    have hdel2 : (delete_cookies st session_id).2 =
        { st with
          _cookie_store := alist_del st._cookie_store session_id
          _metadata := alist_del st._metadata session_id } := by
      simp [delete_cookies, hct]
    rw [hdel, hdel2]
    refine ⟨rfl, alist_get_del_self _ _, alist_get_del_self _ _, ?_⟩
    simp [cookie_is_expired, alist_get_del_self]
  · have hct : alist_get (store_cookies st session_id cookies
        expires_in_hours now₀)._cookie_store session_id =
        some (fernet_encrypt st.cipher_key (.jsonDict cookies)) := by
      simp [store_cookies, alist_get_set_self, encrypt_cookies]
    have hm : alist_get (store_cookies st session_id cookies
        expires_in_hours now₀)._metadata session_id =
        some ⟨now₀, now₀, now₀ + expires_in_hours⟩ := by
      simp [store_cookies, alist_get_set_self]
    constructor
    · simp [retrieve_cookies, hct, hm, hlive, store_cookies,
        decrypt_cookies, fernet_decrypt, json_loads, encrypt_cookies,
        fernet_encrypt, alist_get_set_self]
    · simp [retrieve_cookies, hct, hm, hlive, store_cookies,
        decrypt_cookies, fernet_decrypt, json_loads, encrypt_cookies,
        fernet_encrypt, alist_get_upd_self, alist_get_set_self]

/-- Witness for C7_retrieve: store with ttl 1 at time 0, then a read at
time 2 returns none (spec scenario), and a read at time 1 returns the
stored record. -/
theorem C7_retrieve_witness :
    (retrieve_cookies (store_cookies (CookieState.init 7) 5 [("a", "b")]
      1 0) 5 2).1 = none ∧
    (retrieve_cookies (store_cookies (CookieState.init 7) 5 [("a", "b")]
      1 0) 5 1).1 = some [("a", "b")] := by
  constructor
  · exact ((C7_retrieve (store_cookies (CookieState.init 7) 5 [("a", "b")]
      1 0) 5 2).2.1 (.token 7 (.jsonDict [("a", "b")])) ⟨0, 0, 1⟩
      (by decide) (by decide) (by decide)).1
  · exact ((C7_retrieve (CookieState.init 7) 5 1).2.2 [("a", "b")] 1 0
      (by decide)).1

/-- Claim C8 (confirmed): `decrypt_cookies` never lets an unclassified
exception escape — every failure is the classified `EncryptionError` — and
it does fail on malformed ciphertext, on an authentication-tag mismatch
(token under another key), and on undeserializable plaintext; and
`retrieve_cookies` absorbs any decryption failure into a `none` result, so
the caller never crashes. -/
theorem C8_decrypt_classified (cipher_key : Nat) (ct : FernetToken) :
    ((∃ cs, decrypt_cookies cipher_key ct = .ok cs) ∨
     (∃ msg, decrypt_cookies cipher_key ct = .error (.encryptionError msg))) ∧
    (∀ raw, decrypt_cookies cipher_key (.garbage raw) =
      .error (.encryptionError "Invalid encryption token")) ∧
    (∀ k pt, k ≠ cipher_key → decrypt_cookies cipher_key (.token k pt) =
      .error (.encryptionError "Invalid encryption token")) ∧
    (∀ raw, decrypt_cookies cipher_key (.token cipher_key (.notJson raw)) =
      .error (.encryptionError "Failed to decrypt cookies")) ∧
    (∀ st sid now e, st.cipher_key = cipher_key →
      alist_get st._cookie_store sid = some ct →
      (alist_get st._metadata sid).elim false
        (fun m => decide (m.expires_at < now)) = false →
      decrypt_cookies cipher_key ct = .error e →
      retrieve_cookies st sid now = (none, st)) := by
  refine ⟨?_, fun raw => ?_, fun k pt hk => ?_, fun raw => ?_,
    fun st sid now e hkey hct hexp herr => ?_⟩
  · rcases ct with ⟨k, pt⟩ | raw
    · by_cases hk : k = cipher_key
      · subst hk
        rcases pt with cs | raw
        · exact Or.inl ⟨cs, by simp [decrypt_cookies, fernet_decrypt,
            json_loads]⟩
        · exact Or.inr ⟨"Failed to decrypt cookies",
            by simp [decrypt_cookies, fernet_decrypt, json_loads]⟩
      · exact Or.inr ⟨"Invalid encryption token",
          by simp [decrypt_cookies, fernet_decrypt, hk]⟩
    · exact Or.inr ⟨"Invalid encryption token",
        by simp [decrypt_cookies, fernet_decrypt]⟩
  · simp [decrypt_cookies, fernet_decrypt]
  · simp [decrypt_cookies, fernet_decrypt, hk]
  · simp [decrypt_cookies, fernet_decrypt, json_loads]
  · simp [retrieve_cookies, hct, hexp, hkey, herr]

/-- Witness for C8_decrypt_classified: a tampered blob stored in the vault
decrypts to the classified error, and retrieve surfaces it as none without
modifying the state. -/
theorem C8_decrypt_classified_witness :
    decrypt_cookies 7 (.garbage "x") =
      .error (.encryptionError "Invalid encryption token") ∧
    retrieve_cookies ⟨7, [(5, .garbage "x")], [(5, ⟨0, 0, 10⟩)]⟩ 5 1 =
      (none, ⟨7, [(5, .garbage "x")], [(5, ⟨0, 0, 10⟩)]⟩) := by
  constructor
  · exact (C8_decrypt_classified 7 (.garbage "x")).2.1 "x"
  · exact (C8_decrypt_classified 7 (.garbage "x")).2.2.2.2
      ⟨7, [(5, .garbage "x")], [(5, ⟨0, 0, 10⟩)]⟩ 5 1
      (.encryptionError "Invalid encryption token") rfl (by decide)
      (by decide) ((C8_decrypt_classified 7 (.garbage "x")).2.1 "x")

theorem alist_isSome_upd {α : Type} (l : List (Nat × α)) (k k' : Nat)
    (f : α → α) :
    (alist_get (alist_upd l k f) k').isSome = (alist_get l k').isSome := by
  by_cases hk : k' = k
  · subst hk
    rw [alist_get_upd_self]
    rcases alist_get l k' with _ | v <;> rfl
  · rw [alist_get_upd_ne _ _ _ _ hk]

theorem cookie_sync_delete (st : CookieState) (h : cookie_sync st)
    (sid : Nat) : cookie_sync (delete_cookies st sid).2 := by
  unfold delete_cookies
  rcases hct : alist_get st._cookie_store sid with _ | ct
  · exact h
  · intro k
    by_cases hk : k = sid
    · subst hk; simp [alist_get_del_self]
    · simpa [alist_get_del_ne _ _ _ hk] using h k

/-- Claim C10 (confirmed): every vault operation preserves the invariant
that the encrypted-blob store and the metadata map hold exactly the same
session ids. -/
theorem C10_cookie_sync (st : CookieState) (hsync : cookie_sync st) :
    (∀ sid cookies expires_in_hours now,
      cookie_sync (store_cookies st sid cookies expires_in_hours now)) ∧
    (∀ sid now, cookie_sync (retrieve_cookies st sid now).2) ∧
    (∀ sid, cookie_sync (delete_cookies st sid).2) ∧
    (∀ now, cookie_sync (cookie_cleanup_expired st now).2) := by
  refine ⟨fun sid cookies expires_in_hours now => ?_, fun sid now => ?_,
    fun sid => cookie_sync_delete st hsync sid, fun now => ?_⟩
  · intro k
    by_cases hk : k = sid
    · subst hk; simp [store_cookies, alist_get_set_self]
    · simpa [store_cookies, alist_get_set_ne _ _ _ _ hk] using hsync k
  · unfold retrieve_cookies
    rcases hct : alist_get st._cookie_store sid with _ | ct
    · exact hsync
    · by_cases hexp : (alist_get st._metadata sid).elim false
        (fun m => decide (m.expires_at < now)) = true
      · dsimp only
        rw [if_pos hexp]
        exact cookie_sync_delete st hsync sid
      · dsimp only
        rw [if_neg hexp]
        rcases hdec : decrypt_cookies st.cipher_key ct with e | cookies
        · exact hsync
        · intro k
          simpa [alist_isSome_upd] using hsync k
  · unfold cookie_cleanup_expired
    have hfold : ∀ (l : List Nat) (acc : CookieState), cookie_sync acc →
        cookie_sync (l.foldl (fun a sid => (delete_cookies a sid).2) acc) := by
      intro l
      induction l with
      | nil => intro acc hacc; exact hacc
      | cons x xs ih =>
        intro acc hacc
        exact ih _ (cookie_sync_delete acc hacc x)
    exact hfold _ st hsync

/-- Witness for C10_cookie_sync: the invariant after a store on the empty
vault. -/
theorem C10_cookie_sync_witness :
    cookie_sync (store_cookies (CookieState.init 7) 5 [("a", "b")] 1 0) :=
  (C10_cookie_sync (CookieState.init 7)
    (by intro sid; simp [CookieState.init, alist_get])).1 5 [("a", "b")] 1 0

/-- Counterexample to claim C9 as stated: creating a session with the
empty-string owner user id (`bool("")` is falsy in Python) stores an owner
but sets `authenticated = false`, so the authenticated flag is not
equivalent to an owner having been supplied. -/
theorem C9_counterexample :
    (alist_get (create_session SessionState.init (some "") none 24
      0).2._sessions 0).map (fun s => s.user_id) = some (some "") ∧
    (alist_get (create_session SessionState.init (some "") none 24
      0).2._sessions 0).map (fun s => s.authenticated) = some false := by
  decide

/-- Claim C9 (amended): a created session has a fresh unique id, an empty
active-download list, and `authenticated` set iff a NON-EMPTY owner user id
was supplied (Python truthiness of `bool(user_id)`); a `get_session`
immediately after a create with no owner returns the record with
`authenticated = false`, and a `get_session` strictly after the TTL has
elapsed returns none and lazily deletes the record. -/
theorem C9_create_session_amended (st : SessionState)
    (user_id user_email : Option String) (timeout_hours now : Nat)
    (hfresh : ∀ k, (alist_get st._sessions k).isSome → k < st.nextSid) :
    (create_session st user_id user_email timeout_hours now).1 =
      st.nextSid ∧
    alist_get st._sessions st.nextSid = none ∧
    alist_get (create_session st user_id user_email timeout_hours
        now).2._sessions st.nextSid =
      some ⟨st.nextSid, user_id, user_email, now, now, now + timeout_hours,
            py_truthy user_id, []⟩ ∧
    (py_truthy user_id = true ↔ ∃ s, user_id = some s ∧ s ≠ "") ∧
    (user_id = none →
      (get_session (create_session st user_id user_email timeout_hours
          now).2 st.nextSid now).1 =
        some ⟨st.nextSid, none, user_email, now, now, now + timeout_hours,
              false, []⟩) ∧
    (∀ now₂, now + timeout_hours < now₂ →
      (get_session (create_session st user_id user_email timeout_hours
          now).2 st.nextSid now₂).1 = none ∧
      alist_get (get_session (create_session st user_id user_email
          timeout_hours now).2 st.nextSid now₂).2._sessions st.nextSid =
        none) := by
  have hnone : alist_get st._sessions st.nextSid = none := by
    rcases h : alist_get st._sessions st.nextSid with _ | s
    · rfl
    · exact absurd (hfresh st.nextSid (by simp [h])) (lt_irrefl _)
  have hget : alist_get (create_session st user_id user_email timeout_hours
      now).2._sessions st.nextSid =
      some ⟨st.nextSid, user_id, user_email, now, now, now + timeout_hours,
            py_truthy user_id, []⟩ := by
    simp [create_session, alist_get_set_self]
  refine ⟨rfl, hnone, hget, ?_, fun huid => ?_, fun now₂ hexp => ?_⟩
  · cases user_id with
    | none => simp [py_truthy]
    | some s =>
      simp only [py_truthy, Option.some.injEq]
      constructor
      · intro hne
        refine ⟨s, rfl, ?_⟩
        intro hs
        subst hs
        exact absurd hne (by decide)
      · rintro ⟨s', hs', hne⟩
        subst hs'
        simp only [Bool.not_eq_true', Bool.not_eq_false] at *
        rw [← Bool.not_eq_true]
        exact fun hEmpty => hne ((String.isEmpty_iff s).mp hEmpty)
  · subst huid
    simp [get_session, hget, py_truthy]
  · have hlt : ¬ (now₂ ≤ now + timeout_hours) := by omega
    constructor
    · simp [get_session, hget, hexp]
    · simp [get_session, hget, hexp, delete_session, alist_get_del_self]

/-- Witness for C9_create_session_amended on the empty registry. -/
theorem C9_create_session_amended_witness :
    (create_session SessionState.init none none 24 0).1 = 0 ∧
    (get_session (create_session SessionState.init none none 24 0).2 0
      0).1 = some ⟨0, none, none, 0, 0, 24, false, []⟩ ∧
    (get_session (create_session SessionState.init none none 24 0).2 0
      25).1 = none := by
  have h := C9_create_session_amended SessionState.init none none 24 0
    (by intro k hk; simp [SessionState.init, alist_get] at hk)
  exact ⟨h.1, h.2.2.2.2.1 rfl, (h.2.2.2.2.2 25 (by decide)).1⟩

theorem alist_get_set_cases {α : Type} (l : List (Nat × α)) (k : Nat)
    (v : α) (k' : Nat) (w : α)
    (h : alist_get (alist_set l k v) k' = some w) :
    (k' = k ∧ w = v) ∨ alist_get l k' = some w := by
  by_cases hk : k' = k
  · subst hk
    rw [alist_get_set_self] at h
    exact Or.inl ⟨rfl, (Option.some.injEq _ _ ▸ h).symm⟩
  · rw [alist_get_set_ne _ _ _ _ hk] at h
    exact Or.inr h

theorem alist_get_upd_cases {α : Type} (l : List (Nat × α)) (k : Nat)
    (f : α → α) (k' : Nat) (w : α)
    (h : alist_get (alist_upd l k f) k' = some w) :
    (∃ v, alist_get l k' = some v ∧ w = f v) ∨ alist_get l k' = some w := by
  by_cases hk : k' = k
  · subst hk
    rw [alist_get_upd_self] at h
    rcases hv : alist_get l k' with _ | v
    · rw [hv] at h; simp at h
    · rw [hv] at h
      simp only [Option.map_some', Option.some.injEq] at h
      exact Or.inl ⟨v, rfl, h.symm⟩
  · rw [alist_get_upd_ne _ _ _ _ hk] at h
    exact Or.inr h

theorem step_progress_cases (st : SysState) (ev : Ev) :
    (step st ev).progress = st.progress ∨
    (∃ i s, (step st ev).progress =
      alist_upd st.progress i (fun pu => { pu with status := s })) ∨
    (∃ i pu', (step st ev).progress = alist_set st.progress i pu' ∧
      0 ≤ pu'.progress ∧ pu'.progress ≤ 100) := by
  cases ev with
  | apiDownload request cookies =>
    simp only [step]
    unfold api_download
    obtain ⟨url, ft, fid, q, osid⟩ := request
    rcases osid with _ | sid
    · exact Or.inr (Or.inr ⟨st.nextId, _, rfl, le_refl 0, by norm_num⟩)
    · dsimp only
      rcases hget : get_session st.sessions sid st.now with ⟨os, ses⟩
      rcases os with _ | s
      · exact Or.inl rfl
      · dsimp only
        rcases hcnt : get_active_download_count ses sid st.now with ⟨cnt, ses₂⟩
        dsimp only
        by_cases hle : 3 ≤ cnt
        · rw [if_pos hle]
          exact Or.inl rfl
        · rw [if_neg hle]
          exact Or.inr (Or.inr ⟨st.nextId, _, rfl, le_refl 0, by norm_num⟩)
  | apiCancel download_id session_id =>
    simp only [step]
    unfold api_cancel cancel_download
    rcases hm : alist_get st.downloads download_id with _ | m
    · exact Or.inl rfl
    · dsimp only
      by_cases hs : m.status = .completed ∨ m.status = .failed
      · rw [if_pos hs]
        exact Or.inl rfl
      · rw [if_neg hs]
        rcases session_id with _ | sid
        · exact Or.inr (Or.inl ⟨download_id, .cancelled, rfl⟩)
        · exact Or.inr (Or.inl ⟨download_id, .cancelled, rfl⟩)
  | mkSession user_id user_email timeout_hours => exact Or.inl rfl
  | pickup =>
    simp only [step]
    rcases hq : st.queue with _ | ⟨⟨i, request, cookies⟩, rest⟩
    · exact Or.inl rfl
    · dsimp only
      by_cases hlt : st.running.length < st.maxConcurrent
      · rw [if_pos hlt]
        exact Or.inr (Or.inl ⟨i, .downloading, rfl⟩)
      · rw [if_neg hlt]
        exact Or.inl rfl
  | hookFire download_id data =>
    simp only [step]
    rcases hr : alist_get st.running download_id with _ | request
    · exact Or.inl rfl
    · rcases hh : progress_hook data download_id with e | opu
      · exact Or.inl rfl
      · rcases opu with _ | pu
        · exact Or.inl rfl
        · obtain ⟨_, h0, h100⟩ := progress_hook_ok_some data download_id pu hh
          exact Or.inr (Or.inr ⟨download_id, pu, rfl, h0, h100⟩)
  | finishOk download_id output_file =>
    simp only [step]
    rcases hr : alist_get st.running download_id with _ | request
    · exact Or.inl rfl
    · exact Or.inr (Or.inl ⟨download_id, .completed, rfl⟩)
  | finishErr download_id message =>
    simp only [step]
    rcases hr : alist_get st.running download_id with _ | request
    · exact Or.inl rfl
    · exact Or.inr (Or.inl ⟨download_id, .failed, rfl⟩)
  | tick => exact Or.inl rfl

theorem run_progress_bounds (evs : List Ev) (st : SysState)
    (h : ∀ k pu, alist_get st.progress k = some pu →
      0 ≤ pu.progress ∧ pu.progress ≤ 100) :
    ∀ k pu, alist_get (run st evs).progress k = some pu →
      0 ≤ pu.progress ∧ pu.progress ≤ 100 := by
  induction evs generalizing st with
  | nil => exact h
  | cons ev evs ih =>
    refine ih (step st ev) ?_
    intro k pu hget
    rcases step_progress_cases st ev with hc | ⟨i, s, hc⟩ | ⟨i, pu', hc, h0, h100⟩
    · exact h k pu (hc ▸ hget)
    · rw [hc] at hget
      rcases alist_get_upd_cases _ _ _ _ _ hget with ⟨v, hv, hw⟩ | hv
      · have hb := h k v hv
        rw [hw]
        exact hb
      · exact h k pu hv
    · rw [hc] at hget
      rcases alist_get_set_cases _ _ _ _ _ hget with ⟨_, hw⟩ | hv
      · rw [hw]; exact ⟨h0, h100⟩
      · exact h k pu hv

/-- Claim C6 (confirmed): every progress snapshot ever produced for a job
lies in `[0, 100]`: every snapshot the extraction hook commits passes the
pydantic bound (including the unknown-total and estimated-total cases,
where an out-of-range computed percentage makes construction raise instead
of committing a snapshot), and along any trace of the system every stored
snapshot — the zeroed one at submission, hook updates, and the
status-rewritten ones at terminal transitions — has its percentage in
`[0, 100]`. -/
theorem C6_progress_bounds :
    (∀ data download_id pu,
      progress_hook data download_id = .ok (some pu) →
      0 ≤ pu.progress ∧ pu.progress ≤ 100) ∧
    (∀ maxConcurrent evs k pu,
      alist_get (run (SysState.init maxConcurrent) evs).progress k =
        some pu →
      0 ≤ pu.progress ∧ pu.progress ≤ 100) := by
  constructor
  · intro data download_id pu hh
    exact (progress_hook_ok_some data download_id pu hh).2
  · intro maxConcurrent evs k pu hget
    refine run_progress_bounds evs (SysState.init maxConcurrent) ?_ k pu hget
    intro k' pu' hget'
    simp [SysState.init, alist_get] at hget'

/-- Witness for C6_progress_bounds: the snapshot stored at submission along
a concrete one-event trace. -/
theorem C6_progress_bounds_witness :
    (0 : ℚ) ≤ 0 ∧ (0 : ℚ) ≤ 100 := by
  have h := C6_progress_bounds.2 3
    [.apiDownload ⟨"u", .video, none, some "best", none⟩ none] 0
    ⟨0, .pending, 0, some 0, none, none, none, none, none⟩ (by decide)
  exact ⟨h.1, h.2⟩

/-- Claim C3 (code bug): the worker loop performs no status check between
dequeuing a job and invoking the extraction engine.  Concretely: submit a
job, cancel it while still pending (cancel returns true and the job is
CANCELLED), then let a worker pick it up — the worker overwrites the status
with DOWNLOADING and `download_video` is invoked for the job, which the
claim (and the cancel operation's own contract) says must not happen. -/
theorem C3_cancelled_job_dispatched :
    statusOf (run (SysState.init 3)
      [.apiDownload ⟨"u", .video, none, some "best", none⟩ none,
       .apiCancel 0 none]) 0 = some .cancelled ∧
    statusOf (run (SysState.init 3)
      [.apiDownload ⟨"u", .video, none, some "best", none⟩ none,
       .apiCancel 0 none, .pickup]) 0 = some .downloading ∧
    (run (SysState.init 3)
      [.apiDownload ⟨"u", .video, none, some "best", none⟩ none,
       .apiCancel 0 none, .pickup]).invoked = [0] := by decide

/-- Counterexample to claim C2 as stated: (i) a job cancelled while pending
is in the terminal state CANCELLED, yet the next worker dequeue moves its
status to DOWNLOADING — a terminal state is mutated and the move is
backward along the claimed chain; (ii) even with no cancel involved, a
finished-hook event (PROCESSING) followed by a downloading-hook event from
the next stream of the same job moves PROCESSING back to DOWNLOADING. -/
theorem C2_counterexample :
    (statusOf (run (SysState.init 3)
        [.apiDownload ⟨"u", .video, none, some "best", none⟩ none,
         .apiCancel 0 none]) 0 = some .cancelled ∧
      DownloadStatus.cancelled.isTerminal = true ∧
      statusOf (run (SysState.init 3)
        [.apiDownload ⟨"u", .video, none, some "best", none⟩ none,
         .apiCancel 0 none, .pickup]) 0 = some .downloading) ∧
    (statusOf (run (SysState.init 3)
        [.apiDownload ⟨"u", .video, none, some "best", none⟩ none, .pickup,
         .hookFire 0 ⟨"finished", none, none, none, none, none, some "f"⟩])
        0 = some .processing ∧
      statusOf (run (SysState.init 3)
        [.apiDownload ⟨"u", .video, none, some "best", none⟩ none, .pickup,
         .hookFire 0 ⟨"finished", none, none, none, none, none, some "f"⟩,
         .hookFire 0 ⟨"downloading", some 10, none, none, none, none,
           some "f"⟩]) 0 = some .downloading) := by decide

/-- Counterexample to claim C5 as stated: (i) a session-owned job runs to
completion in the worker, yet the session's active-download set still
contains the job id afterwards — the worker never detaches it (only the
cancel route does); (ii) a job owned by an anonymous session (no user id)
runs to completion, yet no history record keyed by its job id is ever
persisted — `_save_history` returns without inserting when the job's
user id is falsy. -/
theorem C5_counterexample :
    (statusOf (run (SysState.init 3)
      [.mkSession (some "u1") none 24,
       .apiDownload ⟨"u", .video, none, some "best", some 0⟩ none, .pickup,
       .finishOk 0 "out.mp4"]) 0 = some .completed ∧
    (alist_get (run (SysState.init 3)
      [.mkSession (some "u1") none 24,
       .apiDownload ⟨"u", .video, none, some "best", some 0⟩ none, .pickup,
       .finishOk 0 "out.mp4"]).sessions._sessions 0).map
        (fun s => s.active_downloads) = some [0]) ∧
    (statusOf (run (SysState.init 3)
      [.mkSession none none 24,
       .apiDownload ⟨"u", .video, none, some "best", some 0⟩ none, .pickup,
       .finishOk 0 "out.mp4"]) 0 = some .completed ∧
    (run (SysState.init 3)
      [.mkSession none none 24,
       .apiDownload ⟨"u", .video, none, some "best", some 0⟩ none, .pickup,
       .finishOk 0 "out.mp4"]).history = []) := by decide

/-- Claim C5 (amended): on either terminal outcome — success
(`finishOk`, COMPLETED) or failure (`finishErr`, FAILED) — the worker
releases the job from the queue's own active map, stamps the terminal
status, and persists a history record keyed by the job id with an
idempotent insert (skipped when a record with that id already exists, and
skipped when the job's user id is falsy); it never touches the session
registry — the owning session's active-download set is pruned only by the
cancel route. -/
theorem C5_finish_amended (st : SysState) (download_id : Nat)
    (output_file message : String) (request : DownloadRequest)
    (hr : alist_get st.running download_id = some request) :
    ((step st (.finishOk download_id output_file)).sessions = st.sessions ∧
    alist_get (step st (.finishOk download_id output_file)).running
      download_id = none ∧
    statusOf (step st (.finishOk download_id output_file)) download_id =
      (statusOf st download_id).map (fun _ => .completed) ∧
    (st.history.any (fun rec => rec.download_id = download_id) = true →
      (step st (.finishOk download_id output_file)).history = st.history) ∧
    (∀ m, alist_get st.downloads download_id = some m →
      py_truthy m.user_id = false →
      (step st (.finishOk download_id output_file)).history = st.history) ∧
    (∀ m, alist_get st.downloads download_id = some m →
      py_truthy m.user_id = true →
      st.history.any (fun rec => rec.download_id = download_id) = false →
      ∃ rec, (step st (.finishOk download_id output_file)).history =
        st.history ++ [rec] ∧ rec.download_id = download_id ∧
        rec.user_id = m.user_id ∧ rec.status = .completed ∧
        rec.youtube_url = request.url ∧
        rec.file_path = some output_file)) ∧
    ((step st (.finishErr download_id message)).sessions = st.sessions ∧
    alist_get (step st (.finishErr download_id message)).running
      download_id = none ∧
    statusOf (step st (.finishErr download_id message)) download_id =
      (statusOf st download_id).map (fun _ => .failed) ∧
    (st.history.any (fun rec => rec.download_id = download_id) = true →
      (step st (.finishErr download_id message)).history = st.history) ∧
    (∀ m, alist_get st.downloads download_id = some m →
      py_truthy m.user_id = false →
      (step st (.finishErr download_id message)).history = st.history) ∧
    (∀ m, alist_get st.downloads download_id = some m →
      py_truthy m.user_id = true →
      st.history.any (fun rec => rec.download_id = download_id) = false →
      ∃ rec, (step st (.finishErr download_id message)).history =
        st.history ++ [rec] ∧ rec.download_id = download_id ∧
        rec.user_id = m.user_id ∧ rec.status = .failed ∧
        rec.youtube_url = request.url ∧
        rec.error_message = some message)) := by
  constructor
  · simp only [step, hr]
    refine ⟨rfl, alist_get_del_self _ _, ?_, ?_, ?_, ?_⟩
    · rcases hm : alist_get st.downloads download_id with _ | m <;>
        simp [statusOf, update_status, alist_get_upd_self, hm]
    · intro hany
      unfold save_history
      rcases hm2 : alist_get (alist_upd (update_status st download_id
          .completed).downloads download_id fun m =>
          { m with output_file := some output_file,
                   file_name := some output_file,
                   completed_at := some st.now }) download_id with _ | m2
      · rfl
      · dsimp only
        by_cases htr : py_truthy m2.user_id
        · simp [update_status, htr, hany]
        · simp [update_status, htr]
    · intro m hm htr
      unfold save_history
      have hm2 : alist_get (alist_upd (update_status st download_id
          .completed).downloads download_id fun m =>
          { m with output_file := some output_file,
                   file_name := some output_file,
                   completed_at := some st.now }) download_id =
          some { m with
                  status := .completed
                  output_file := some output_file
                  file_name := some output_file
                  completed_at := some st.now } := by
        simp [update_status, alist_get_upd_self, hm]
      rw [hm2]
      dsimp only
      simp [update_status, htr]
    · intro m hm htr hany
      unfold save_history
      have hm2 : alist_get (alist_upd (update_status st download_id
          .completed).downloads download_id fun m =>
          { m with output_file := some output_file,
                   file_name := some output_file,
                   completed_at := some st.now }) download_id =
          some { m with
                  status := .completed
                  output_file := some output_file
                  file_name := some output_file
                  completed_at := some st.now } := by
        simp [update_status, alist_get_upd_self, hm]
      rw [hm2]
      dsimp only
      have hh : (update_status st download_id
          DownloadStatus.completed).history = st.history := rfl
      rw [hh]
      rw [if_neg (by simp [htr]), if_neg (by simp [hany])]
      exact ⟨_, rfl, rfl, rfl, rfl, rfl, rfl⟩
  · simp only [step, hr]
    refine ⟨rfl, alist_get_del_self _ _, ?_, ?_, ?_, ?_⟩
    · rcases hm : alist_get st.downloads download_id with _ | m <;>
        simp [statusOf, update_status, alist_get_upd_self, hm]
    · intro hany
      unfold save_history
      rcases hm2 : alist_get (alist_upd (update_status st download_id
          .failed).downloads download_id fun m =>
          { m with error := some message,
                   completed_at := some st.now }) download_id with _ | m2
      · rfl
      · dsimp only
        by_cases htr : py_truthy m2.user_id
        · simp [update_status, htr, hany]
        · simp [update_status, htr]
    · intro m hm htr
      unfold save_history
      have hm2 : alist_get (alist_upd (update_status st download_id
          .failed).downloads download_id fun m =>
          { m with error := some message,
                   completed_at := some st.now }) download_id =
          some { m with
                  status := .failed
                  error := some message
                  completed_at := some st.now } := by
        simp [update_status, alist_get_upd_self, hm]
      rw [hm2]
      dsimp only
      simp [update_status, htr]
    · intro m hm htr hany
      unfold save_history
      have hm2 : alist_get (alist_upd (update_status st download_id
          .failed).downloads download_id fun m =>
          { m with error := some message,
                   completed_at := some st.now }) download_id =
          some { m with
                  status := .failed
                  error := some message
                  completed_at := some st.now } := by
        simp [update_status, alist_get_upd_self, hm]
      rw [hm2]
      dsimp only
      have hh : (update_status st download_id
          DownloadStatus.failed).history = st.history := rfl
      rw [hh]
      rw [if_neg (by simp [htr]), if_neg (by simp [hany])]
      exact ⟨_, rfl, rfl, rfl, rfl, rfl, rfl⟩

/-- Witness for C5_finish_amended along a concrete run: the worker leaves
the session registry untouched on both the success and the failure
outcome. -/
theorem C5_finish_amended_witness :
    (step (run (SysState.init 3)
      [.mkSession (some "u1") none 24,
       .apiDownload ⟨"u", .video, none, some "best", some 0⟩ none, .pickup])
      (.finishOk 0 "out.mp4")).sessions =
    (run (SysState.init 3)
      [.mkSession (some "u1") none 24,
       .apiDownload ⟨"u", .video, none, some "best", some 0⟩ none,
       .pickup]).sessions ∧
    (step (run (SysState.init 3)
      [.mkSession (some "u1") none 24,
       .apiDownload ⟨"u", .video, none, some "best", some 0⟩ none, .pickup])
      (.finishErr 0 "boom")).sessions =
    (run (SysState.init 3)
      [.mkSession (some "u1") none 24,
       .apiDownload ⟨"u", .video, none, some "best", some 0⟩ none,
       .pickup]).sessions :=
  ⟨(C5_finish_amended (run (SysState.init 3)
    [.mkSession (some "u1") none 24,
     .apiDownload ⟨"u", .video, none, some "best", some 0⟩ none, .pickup])
    0 "out.mp4" "boom" ⟨"u", .video, none, some "best", some 0⟩
    (by decide)).1.1,
   (C5_finish_amended (run (SysState.init 3)
    [.mkSession (some "u1") none 24,
     .apiDownload ⟨"u", .video, none, some "best", some 0⟩ none, .pickup])
    0 "out.mp4" "boom" ⟨"u", .video, none, some "best", some 0⟩
    (by decide)).2.1⟩

theorem isSome_update_status (st : SysState) (i : Nat) (s : DownloadStatus)
    (k : Nat) :
    (alist_get (update_status st i s).downloads k).isSome =
    (alist_get st.downloads k).isSome := by
  simp [update_status, alist_isSome_upd]

theorem statusOf_update_progress_self (st : SysState) (i : Nat)
    (pu : ProgressUpdate) :
    statusOf (update_progress st i pu) i =
    (statusOf st i).map (fun _ => pu.status) := by
  rcases h : alist_get st.downloads i with _ | m <;>
    simp [statusOf, update_progress, alist_get_upd_self, h]

theorem statusOf_update_progress_ne (st : SysState) (i k : Nat)
    (pu : ProgressUpdate) (h : k ≠ i) :
    statusOf (update_progress st i pu) k = statusOf st k := by
  simp [statusOf, update_progress, alist_get_upd_ne _ _ _ _ h]

theorem statusOf_isSome (st : SysState) (k : Nat) (s : DownloadStatus)
    (h : statusOf st k = some s) : (alist_get st.downloads k).isSome := by
  rcases hm : alist_get st.downloads k with _ | m
  · simp [statusOf, hm] at h
  · simp [hm]

theorem api_download_facts (st : SysState) (request : DownloadRequest)
    (cookies : Option String) :
    ((api_download st request cookies).downloads = st.downloads ∧
     (api_download st request cookies).queue = st.queue ∧
     (api_download st request cookies).running = st.running ∧
     (api_download st request cookies).nextId = st.nextId) ∨
    (∃ sid uid,
      (api_download st request cookies).downloads =
        alist_set st.downloads st.nextId
          ⟨st.nextId, sid, uid, request.url, .pending, st.now,
           none, none, none, none⟩ ∧
      (api_download st request cookies).queue =
        st.queue ++ [(st.nextId, request, cookies)] ∧
      (api_download st request cookies).running = st.running ∧
      (api_download st request cookies).nextId = st.nextId + 1) := by
  unfold api_download
  obtain ⟨url, ft, fid, q, osid⟩ := request
  rcases osid with _ | sid
  · exact Or.inr ⟨none, none, rfl, rfl, rfl, rfl⟩
  · dsimp only
    rcases hget : get_session st.sessions sid st.now with ⟨os, ses⟩
    rcases os with _ | s
    · exact Or.inl ⟨rfl, rfl, rfl, rfl⟩
    · dsimp only
      rcases hcnt : get_active_download_count ses sid st.now with ⟨cnt, ses₂⟩
      dsimp only
      by_cases hle : 3 ≤ cnt
      · rw [if_pos hle]
        exact Or.inl ⟨rfl, rfl, rfl, rfl⟩
      · rw [if_neg hle]
        exact Or.inr ⟨some sid, s.user_id, rfl, rfl, rfl, rfl⟩

theorem api_cancel_facts (st : SysState) (i : Nat) (sid : Option Nat) :
    (api_cancel st i sid).queue = st.queue ∧
    (api_cancel st i sid).running = st.running ∧
    (api_cancel st i sid).nextId = st.nextId ∧
    (∀ k, (alist_get (api_cancel st i sid).downloads k).isSome =
      (alist_get st.downloads k).isSome) ∧
    (∀ k, k ≠ i → statusOf (api_cancel st i sid) k = statusOf st k) ∧
    (statusOf (api_cancel st i sid) i = statusOf st i ∨
      (statusOf st i ≠ some .completed ∧ statusOf st i ≠ some .failed ∧
       statusOf (api_cancel st i sid) i = some .cancelled)) := by
  unfold api_cancel cancel_download
  rcases hm : alist_get st.downloads i with _ | m
  · exact ⟨rfl, rfl, rfl, fun k => rfl, fun k _ => rfl, Or.inl rfl⟩
  · dsimp only
    by_cases hs : m.status = .completed ∨ m.status = .failed
    · rw [if_pos hs]
      exact ⟨rfl, rfl, rfl, fun k => rfl, fun k _ => rfl, Or.inl rfl⟩
    · rw [if_neg hs]
      rcases sid with _ | s
      all_goals
        refine ⟨rfl, rfl, rfl, fun k => ?_, fun k hk => ?_, Or.inr ⟨?_, ?_, ?_⟩⟩
      case _ =>
        simp [update_status, alist_isSome_upd]
      case _ =>
        simp [statusOf, update_status, alist_get_upd_ne _ _ _ _ hk]
      case _ =>
        intro hc
        simp [statusOf, hm] at hc
        exact hs (Or.inl hc)
      case _ =>
        intro hc
        simp [statusOf, hm] at hc
        exact hs (Or.inr hc)
      case _ =>
        simp [statusOf, update_status, alist_get_upd_self, hm]
      case _ =>
        simp [update_status, alist_isSome_upd]
      case _ =>
        simp [statusOf, update_status, alist_get_upd_ne _ _ _ _ hk]
      case _ =>
        intro hc
        simp [statusOf, hm] at hc
        exact hs (Or.inl hc)
      case _ =>
        intro hc
        simp [statusOf, hm] at hc
        exact hs (Or.inr hc)
      case _ =>
        simp [statusOf, update_status, alist_get_upd_self, hm]

theorem isSome_update_progress (st : SysState) (i : Nat)
    (pu : ProgressUpdate) (k : Nat) :
    (alist_get (update_progress st i pu).downloads k).isSome =
    (alist_get st.downloads k).isSome := by
  simp [update_progress, alist_isSome_upd]

theorem alist_del_keys {α : Type} (l : List (Nat × α)) (i k : Nat)
    (h : k ∈ (alist_del l i).map (fun p => p.1)) :
    k ∈ l.map (fun p => p.1) ∧ k ≠ i := by
  constructor
  · exact ((alist_del_sublist l i).map (fun p => p.1)).mem h
  · intro hk
    subst hk
    have := alist_mem_isSome _ _ h
    rw [alist_get_del_self] at this
    simp at this

theorem GInv_of_components (st st' : SysState)
    (hd : st'.downloads = st.downloads) (hque : st'.queue = st.queue)
    (hrun : st'.running = st.running) (hn : st'.nextId = st.nextId)
    (h : GInv st) : GInv st' := by
  obtain ⟨h1, h2, h3, h4⟩ := h
  refine ⟨fun k hk => ?_, fun k hk => ?_, fun k hk => ?_, ?_⟩
  · rw [hd] at hk
    rw [hn]
    exact h1 k hk
  · have hk' : k ∈ queueIds st := by
      unfold queueIds at hk ⊢
      rwa [hque] at hk
    have := h2 k hk'
    unfold statusOf at this ⊢
    rw [hd]
    exact this
  · have hk' : k ∈ runningIds st := by
      unfold runningIds at hk ⊢
      rwa [hrun] at hk
    have := h3 k hk'
    unfold statusOf at this ⊢
    rw [hd]
    exact this
  · unfold queueIds runningIds
    rw [hque, hrun]
    exact h4

theorem statusOf_finish_ne (st : SysState) (i k : Nat) (s : DownloadStatus)
    (f : JobMeta → JobMeta) (hk : k ≠ i) :
    (alist_get (alist_upd (update_status st i s).downloads i f) k).map
      (fun m => m.status) = statusOf st k := by
  rw [alist_get_upd_ne _ _ _ _ hk]
  exact statusOf_update_status_ne st i k s hk

theorem statusOf_finish_self (st : SysState) (i : Nat) (s : DownloadStatus)
    (f : JobMeta → JobMeta) (hf : ∀ m, (f m).status = m.status) :
    (alist_get (alist_upd (update_status st i s).downloads i f) i).map
      (fun m => m.status) = (statusOf st i).map (fun _ => s) := by
  rcases hm : alist_get st.downloads i with _ | m
  · simp [statusOf, update_status, alist_get_upd_self, hm]
  · simp [statusOf, update_status, alist_get_upd_self, hm, hf]

theorem isSome_finish (st : SysState) (i : Nat) (s : DownloadStatus)
    (f : JobMeta → JobMeta) (k : Nat) :
    (alist_get (alist_upd (update_status st i s).downloads i f) k).isSome =
    (alist_get st.downloads k).isSome := by
  rw [alist_isSome_upd]
  exact isSome_update_status st i s k


theorem GInv_step (st : SysState) (ev : Ev) (h : GInv st) :
    GInv (step st ev) := by
  obtain ⟨hfresh, hqs, hrs, hnd⟩ := h
  cases ev with
  | apiDownload request cookies =>
    simp only [step]
    rcases api_download_facts st request cookies with
      ⟨hd, hque, hrun, hn⟩ | ⟨sid, uid, hd, hque, hrun, hn⟩
    · exact GInv_of_components st _ hd hque hrun hn ⟨hfresh, hqs, hrs, hnd⟩
    · have hqlt : ∀ k, k ∈ queueIds st → k < st.nextId := by
        intro k hk
        rcases hqs k hk with hs | hs <;>
          exact hfresh k (statusOf_isSome st k _ hs)
      have hrlt : ∀ k, k ∈ runningIds st → k < st.nextId := by
        intro k hk
        rcases hrs k hk with hs | hs | hs <;>
          exact hfresh k (statusOf_isSome st k _ hs)
      have hque' : queueIds (api_download st request cookies) =
          queueIds st ++ [st.nextId] := by
        unfold queueIds
        rw [hque]
        simp
      have hrun' : runningIds (api_download st request cookies) =
          runningIds st := by
        unfold runningIds
        rw [hrun]
      refine ⟨fun k hk => ?_, fun k hk => ?_, fun k hk => ?_, ?_⟩
      · rw [hn]
        rw [hd] at hk
        by_cases hka : k = st.nextId
        · omega
        · rw [alist_get_set_ne _ _ _ _ hka] at hk
          have := hfresh k hk
          omega
      · rw [hque'] at hk
        rcases List.mem_append.mp hk with hk | hk
        · have hklt := hqlt k hk
          have hkne : k ≠ st.nextId := by omega
          have heq : statusOf (api_download st request cookies) k =
              statusOf st k := by
            unfold statusOf
            rw [hd, alist_get_set_ne _ _ _ _ hkne]
          rw [heq]
          exact hqs k hk
        · have hka : k = st.nextId := by simpa using hk
          subst hka
          left
          unfold statusOf
          rw [hd, alist_get_set_self]
          rfl
      · rw [hrun'] at hk
        have hklt := hrlt k hk
        have hkne : k ≠ st.nextId := by omega
        have heq : statusOf (api_download st request cookies) k =
            statusOf st k := by
          unfold statusOf
          rw [hd, alist_get_set_ne _ _ _ _ hkne]
        rw [heq]
        exact hrs k hk
      · rw [hque', hrun']
        have hnotq : st.nextId ∉ queueIds st :=
          fun hk => absurd (hqlt _ hk) (lt_irrefl _)
        have hnotr : st.nextId ∉ runningIds st :=
          fun hk => absurd (hrlt _ hk) (lt_irrefl _)
        obtain ⟨ndq, ndr, disj⟩ := List.nodup_append.mp hnd
        refine List.nodup_append.mpr
          ⟨List.nodup_append.mpr ⟨ndq, List.nodup_singleton _, ?_⟩, ndr, ?_⟩
        · intro x hx hx'
          have hxa : x = st.nextId := by simpa using hx'
          subst hxa
          exact hnotq hx
        · intro x hx hx'
          rcases List.mem_append.mp hx with hx | hx
          · exact disj hx hx'
          · have hxa : x = st.nextId := by simpa using hx
            subst hxa
            exact hnotr hx'
  | apiCancel download_id session_id =>
    simp only [step]
    obtain ⟨hque, hrun, hn, hsome, hne, hci⟩ :=
      api_cancel_facts st download_id session_id
    have hque' : queueIds (api_cancel st download_id session_id) =
        queueIds st := by
      unfold queueIds
      rw [hque]
    have hrun' : runningIds (api_cancel st download_id session_id) =
        runningIds st := by
      unfold runningIds
      rw [hrun]
    refine ⟨fun k hk => ?_, fun k hk => ?_, fun k hk => ?_, ?_⟩
    · rw [hn]
      refine hfresh k ?_
      rw [hsome k] at hk
      exact hk
    · rw [hque'] at hk
      by_cases hkd : k = download_id
      · subst hkd
        rcases hci with hci | ⟨_, _, hci⟩
        · rw [hci]
          exact hqs k hk
        · rw [hci]
          right
          rfl
      · rw [hne k hkd]
        exact hqs k hk
    · rw [hrun'] at hk
      by_cases hkd : k = download_id
      · subst hkd
        rcases hci with hci | ⟨_, _, hci⟩
        · rw [hci]
          exact hrs k hk
        · rw [hci]
          right
          right
          rfl
      · rw [hne k hkd]
        exact hrs k hk
    · rw [hque', hrun']
      exact hnd
  | mkSession user_id user_email timeout_hours =>
    exact GInv_of_components st _ rfl rfl rfl rfl ⟨hfresh, hqs, hrs, hnd⟩
  | tick =>
    exact GInv_of_components st _ rfl rfl rfl rfl ⟨hfresh, hqs, hrs, hnd⟩
  | pickup =>
    simp only [step]
    rcases hqe : st.queue with _ | ⟨⟨j, request, ck⟩, rest⟩
    · exact ⟨hfresh, hqs, hrs, hnd⟩
    · dsimp only
      by_cases hlt : st.running.length < st.maxConcurrent
      · rw [if_pos hlt]
        have hqids : queueIds st = j :: rest.map (fun p => p.1) := by
          unfold queueIds
          rw [hqe]
          rfl
        have hjq : j ∈ queueIds st := by
          rw [hqids]
          exact List.mem_cons_self _ _
        have hjs := hqs j hjq
        have hnd₂ : (j :: (rest.map (fun p => p.1) ++ runningIds st)).Nodup := by
          rw [hqids] at hnd
          simpa using hnd
        have hjnot : j ∉ rest.map (fun p => p.1) ++ runningIds st :=
          (List.nodup_cons.mp hnd₂).1
        have hnd₃ : (rest.map (fun p => p.1) ++ runningIds st).Nodup :=
          (List.nodup_cons.mp hnd₂).2
        refine ⟨fun k hk => ?_, fun k hk => ?_, fun k hk => ?_, ?_⟩
        · rw [isSome_update_status] at hk
          exact hfresh k hk
        · have hkr : k ∈ rest.map (fun p => p.1) := by
            simpa [queueIds] using hk
          have hkj : k ≠ j := by
            intro hkj
            subst hkj
            exact hjnot (List.mem_append.mpr (Or.inl hkr))
          have heq : statusOf { update_status st j .downloading with
              queue := rest,
              running := st.running ++ [(j, request)],
              invoked := st.invoked ++ [j] } k =
              statusOf st k := by
            have h1 : statusOf { update_status st j .downloading with
                queue := rest,
                running := st.running ++ [(j, request)],
                invoked := st.invoked ++ [j] } k =
                statusOf (update_status st j .downloading) k := rfl
            rw [h1, statusOf_update_status_ne st j k _ hkj]
          rw [heq]
          refine hqs k ?_
          rw [hqids]
          exact List.mem_cons_of_mem _ hkr
        · have hkr : k ∈ runningIds st ++ [j] := by
            simpa [runningIds] using hk
          rcases List.mem_append.mp hkr with hk' | hk'
          · have hkj : k ≠ j := by
              intro hkj
              subst hkj
              exact hjnot (List.mem_append.mpr (Or.inr hk'))
            have heq : statusOf { update_status st j .downloading with
                queue := rest,
                running := st.running ++ [(j, request)],
                invoked := st.invoked ++ [j] } k =
                statusOf st k := by
              have h1 : statusOf { update_status st j .downloading with
                  queue := rest,
                  running := st.running ++ [(j, request)],
                  invoked := st.invoked ++ [j] } k =
                  statusOf (update_status st j .downloading) k := rfl
              rw [h1, statusOf_update_status_ne st j k _ hkj]
            rw [heq]
            exact hrs k hk'
          · have hkj : k = j := by simpa using hk'
            subst hkj
            left
            have h1 : statusOf { update_status st k .downloading with
                queue := rest,
                running := st.running ++ [(k, request)],
                invoked := st.invoked ++ [k] } k =
                statusOf (update_status st k .downloading) k := rfl
            rw [h1, statusOf_update_status_self]
            rcases hjs with hs | hs <;> rw [hs] <;> rfl
        · have hq2 : queueIds { update_status st j .downloading with
              queue := rest,
              running := st.running ++ [(j, request)],
              invoked := st.invoked ++ [j] } = rest.map (fun p => p.1) := rfl
          have hr2 : runningIds { update_status st j .downloading with
              queue := rest,
              running := st.running ++ [(j, request)],
              invoked := st.invoked ++ [j] } = runningIds st ++ [j] := by
            unfold runningIds
            simp
          rw [hq2, hr2]
          obtain ⟨ndrest, ndrun, disj⟩ := List.nodup_append.mp hnd₃
          have hjnr : j ∉ runningIds st :=
            fun hx => hjnot (List.mem_append.mpr (Or.inr hx))
          have hjnq : j ∉ rest.map (fun p => p.1) :=
            fun hx => hjnot (List.mem_append.mpr (Or.inl hx))
          refine List.nodup_append.mpr
            ⟨ndrest, List.nodup_append.mpr
              ⟨ndrun, List.nodup_singleton _, ?_⟩, ?_⟩
          · intro x hx hx'
            have hxa : x = j := by simpa using hx'
            subst hxa
            exact hjnr hx
          · intro x hx hx'
            rcases List.mem_append.mp hx' with hx' | hx'
            · exact disj hx hx'
            · have hxa : x = j := by simpa using hx'
              subst hxa
              exact hjnq hx
      · rw [if_neg hlt]
        exact ⟨hfresh, hqs, hrs, hnd⟩
  | hookFire download_id data =>
    simp only [step]
    rcases hrg : alist_get st.running download_id with _ | request
    · exact ⟨hfresh, hqs, hrs, hnd⟩
    · rcases hh : progress_hook data download_id with e | opu
      · exact ⟨hfresh, hqs, hrs, hnd⟩
      · rcases opu with _ | pu
        · exact ⟨hfresh, hqs, hrs, hnd⟩
        · obtain ⟨hpust, _, _⟩ := progress_hook_ok_some data download_id pu hh
          have hir : download_id ∈ runningIds st := by
            unfold runningIds
            exact alist_get_isSome_mem _ _ (by simp [hrg])
          have hdisj := List.disjoint_of_nodup_append hnd
          refine ⟨fun k hk => ?_, fun k hk => ?_, fun k hk => ?_, ?_⟩
          · rw [isSome_update_progress] at hk
            exact hfresh k hk
          · have hkj : k ≠ download_id := by
              intro hkj
              subst hkj
              exact hdisj hk hir
            rw [statusOf_update_progress_ne st _ k pu hkj]
            exact hqs k hk
          · by_cases hkj : k = download_id
            · subst hkj
              rw [statusOf_update_progress_self]
              rcases hrs k hk with hs | hs | hs <;> rw [hs] <;>
                rcases hpust with hp | hp <;> rw [hp] <;> simp
            · rw [statusOf_update_progress_ne st _ k pu hkj]
              exact hrs k hk
          · exact hnd
  | finishOk download_id output_file =>
    simp only [step]
    rcases hrg : alist_get st.running download_id with _ | request
    · exact ⟨hfresh, hqs, hrs, hnd⟩
    · dsimp only
      have hir : download_id ∈ runningIds st := by
        unfold runningIds
        exact alist_get_isSome_mem _ _ (by simp [hrg])
      have hdisj := List.disjoint_of_nodup_append hnd
      refine ⟨fun k hk => ?_, fun k hk => ?_, fun k hk => ?_, ?_⟩
      · have hk' : (alist_get st.downloads k).isSome := by
          rw [← isSome_finish st download_id .completed
            (fun m => { m with output_file := some output_file,
                               file_name := some output_file,
                               completed_at := some st.now }) k]
          exact hk
        exact hfresh k hk'
      · have hkq : k ∈ queueIds st := hk
        have hkj : k ≠ download_id := by
          intro hkj
          subst hkj
          exact hdisj hkq hir
        have heq : (alist_get (alist_upd (update_status st download_id
            .completed).downloads download_id
            (fun m => { m with output_file := some output_file,
                               file_name := some output_file,
                               completed_at := some st.now })) k).map
            (fun m => m.status) = statusOf st k :=
          statusOf_finish_ne st download_id k .completed _ hkj
        rcases hqs k hkq with hs | hs
        · left
          rw [← hs]
          exact heq
        · right
          rw [← hs]
          exact heq
      · have hkr := alist_del_keys st.running download_id k hk
        have hkj := hkr.2
        have heq : (alist_get (alist_upd (update_status st download_id
            .completed).downloads download_id
            (fun m => { m with output_file := some output_file,
                               file_name := some output_file,
                               completed_at := some st.now })) k).map
            (fun m => m.status) = statusOf st k :=
          statusOf_finish_ne st download_id k .completed _ hkj
        rcases hrs k hkr.1 with hs | hs | hs
        · left
          rw [← hs]
          exact heq
        · right
          left
          rw [← hs]
          exact heq
        · right
          right
          rw [← hs]
          exact heq
      · show (queueIds st ++ (alist_del st.running download_id).map
            (fun p => p.1)).Nodup
        exact List.Nodup.sublist
          (((alist_del_sublist st.running download_id).map
            (fun p => p.1)).append_left (queueIds st)) hnd
  | finishErr download_id message =>
    simp only [step]
    rcases hrg : alist_get st.running download_id with _ | request
    · exact ⟨hfresh, hqs, hrs, hnd⟩
    · dsimp only
      have hir : download_id ∈ runningIds st := by
        unfold runningIds
        exact alist_get_isSome_mem _ _ (by simp [hrg])
      have hdisj := List.disjoint_of_nodup_append hnd
      refine ⟨fun k hk => ?_, fun k hk => ?_, fun k hk => ?_, ?_⟩
      · have hk' : (alist_get st.downloads k).isSome := by
          rw [← isSome_finish st download_id .failed
            (fun m => { m with error := some message,
                               completed_at := some st.now }) k]
          exact hk
        exact hfresh k hk'
      · have hkq : k ∈ queueIds st := hk
        have hkj : k ≠ download_id := by
          intro hkj
          subst hkj
          exact hdisj hkq hir
        have heq : (alist_get (alist_upd (update_status st download_id
            .failed).downloads download_id
            (fun m => { m with error := some message,
                               completed_at := some st.now })) k).map
            (fun m => m.status) = statusOf st k :=
          statusOf_finish_ne st download_id k .failed _ hkj
        rcases hqs k hkq with hs | hs
        · left
          rw [← hs]
          exact heq
        · right
          rw [← hs]
          exact heq
      · have hkr := alist_del_keys st.running download_id k hk
        have hkj := hkr.2
        have heq : (alist_get (alist_upd (update_status st download_id
            .failed).downloads download_id
            (fun m => { m with error := some message,
                               completed_at := some st.now })) k).map
            (fun m => m.status) = statusOf st k :=
          statusOf_finish_ne st download_id k .failed _ hkj
        rcases hrs k hkr.1 with hs | hs | hs
        · left
          rw [← hs]
          exact heq
        · right
          left
          rw [← hs]
          exact heq
        · right
          right
          rw [← hs]
          exact heq
      · show (queueIds st ++ (alist_del st.running download_id).map
            (fun p => p.1)).Nodup
        exact List.Nodup.sublist
          (((alist_del_sublist st.running download_id).map
            (fun p => p.1)).append_left (queueIds st)) hnd

theorem GInv_init (maxConcurrent : Nat) : GInv (SysState.init maxConcurrent) :=
  ⟨fun k hk => by simp [SysState.init, alist_get] at hk,
   fun k hk => by simp [SysState.init, queueIds] at hk,
   fun k hk => by simp [SysState.init, runningIds] at hk,
   by simp [SysState.init, queueIds, runningIds]⟩

theorem GInv_run (evs : List Ev) (st : SysState) (h : GInv st) :
    GInv (run st evs) := by
  induction evs generalizing st with
  | nil => exact h
  | cons ev evs ih => exact ih (step st ev) (GInv_step st ev h)

theorem step_isSome (st : SysState) (ev : Ev) (k : Nat)
    (h : (alist_get st.downloads k).isSome) :
    (alist_get (step st ev).downloads k).isSome := by
  cases ev with
  | apiDownload request cookies =>
    simp only [step]
    rcases api_download_facts st request cookies with
      ⟨hd, _, _, _⟩ | ⟨sid, uid, hd, _, _, _⟩
    · rw [hd]
      exact h
    · rw [hd]
      by_cases hka : k = st.nextId
      · subst hka
        rw [alist_get_set_self]
        rfl
      · rw [alist_get_set_ne _ _ _ _ hka]
        exact h
  | apiCancel download_id session_id =>
    simp only [step]
    rw [(api_cancel_facts st download_id session_id).2.2.2.1 k]
    exact h
  | mkSession user_id user_email timeout_hours => exact h
  | tick => exact h
  | pickup =>
    simp only [step]
    rcases hqe : st.queue with _ | ⟨⟨j, request, ck⟩, rest⟩
    · exact h
    · dsimp only
      by_cases hlt : st.running.length < st.maxConcurrent
      · rw [if_pos hlt]
        show (alist_get (update_status st j .downloading).downloads k).isSome
          = true
        rw [isSome_update_status]
        exact h
      · rw [if_neg hlt]
        exact h
  | hookFire download_id data =>
    simp only [step]
    rcases hrg : alist_get st.running download_id with _ | request
    · exact h
    · rcases hh : progress_hook data download_id with e | opu
      · exact h
      · rcases opu with _ | pu
        · exact h
        · rw [isSome_update_progress]
          exact h
  | finishOk download_id output_file =>
    simp only [step]
    rcases hrg : alist_get st.running download_id with _ | request
    · exact h
    · dsimp only
      show (alist_get (alist_upd (update_status st download_id
          .completed).downloads download_id
          (fun m => { m with output_file := some output_file,
                             file_name := some output_file,
                             completed_at := some st.now })) k).isSome = true
      rw [isSome_finish]
      exact h
  | finishErr download_id message =>
    simp only [step]
    rcases hrg : alist_get st.running download_id with _ | request
    · exact h
    · dsimp only
      show (alist_get (alist_upd (update_status st download_id
          .failed).downloads download_id
          (fun m => { m with error := some message,
                             completed_at := some st.now })) k).isSome = true
      rw [isSome_finish]
      exact h

theorem crank_of_eq {s s' : DownloadStatus} (h : s' = s) :
    statusRank s ≤ statusRank s' ∧
    ((s = .completed ∨ s = .failed) → s' = s) :=
  ⟨h ▸ le_refl _, fun _ => h⟩

theorem crank_of_statusOf_eq {st st' : SysState} {k : Nat}
    {s s' : DownloadStatus} (heq : statusOf st' k = statusOf st k)
    (h1 : statusOf st k = some s) (h2 : statusOf st' k = some s') :
    statusRank s ≤ statusRank s' ∧
    ((s = .completed ∨ s = .failed) → s' = s) := by
  rw [heq, h1] at h2
  exact crank_of_eq (Option.some_inj.mp h2).symm

theorem crank_step (st : SysState) (ev : Ev) (k : Nat)
    (s s' : DownloadStatus) (hG : GInv st)
    (h1 : statusOf st k = some s)
    (h2 : statusOf (step st ev) k = some s') :
    statusRank s ≤ statusRank s' ∧
    ((s = .completed ∨ s = .failed) → s' = s) := by
  obtain ⟨hfresh, hqs, hrs, hnd⟩ := hG
  cases ev with
  | apiDownload request cookies =>
    simp only [step] at h2
    rcases api_download_facts st request cookies with
      ⟨hd, _, _, _⟩ | ⟨sid, uid, hd, _, _, _⟩
    · have heq : statusOf (api_download st request cookies) k =
          statusOf st k := by
        unfold statusOf
        rw [hd]
      exact crank_of_statusOf_eq heq h1 h2
    · by_cases hka : k = st.nextId
      · have hlt := hfresh k (statusOf_isSome st k s h1)
        rw [hka] at hlt
        exact absurd hlt (lt_irrefl _)
      · have heq : statusOf (api_download st request cookies) k =
            statusOf st k := by
          unfold statusOf
          rw [hd, alist_get_set_ne _ _ _ _ hka]
        exact crank_of_statusOf_eq heq h1 h2
  | apiCancel download_id session_id =>
    simp only [step] at h2
    obtain ⟨_, _, _, _, hne, hci⟩ := api_cancel_facts st download_id session_id
    by_cases hkd : k = download_id
    · subst hkd
      rcases hci with hci | ⟨hc1, hc2, hci⟩
      · exact crank_of_statusOf_eq hci h1 h2
      · have hs' : s' = .cancelled := by
          rw [hci] at h2
          exact (Option.some_inj.mp h2).symm
        subst hs'
        have hsc : s ≠ .completed := fun hh => hc1 (hh ▸ h1)
        have hsf : s ≠ .failed := fun hh => hc2 (hh ▸ h1)
        constructor
        · cases s <;> simp_all [statusRank]
        · intro hterm
          rcases hterm with hh | hh
          · exact absurd hh hsc
          · exact absurd hh hsf
    · exact crank_of_statusOf_eq (hne k hkd) h1 h2
  | mkSession user_id user_email timeout_hours =>
    exact crank_of_statusOf_eq rfl h1 h2
  | tick => exact crank_of_statusOf_eq rfl h1 h2
  | pickup =>
    simp only [step] at h2
    rcases hqe : st.queue with _ | ⟨⟨j, request, ck⟩, rest⟩
    · rw [hqe] at h2
      exact crank_of_statusOf_eq rfl h1 h2
    · rw [hqe] at h2
      dsimp only at h2
      by_cases hlt : st.running.length < st.maxConcurrent
      · rw [if_pos hlt] at h2
        by_cases hkj : k = j
        · subst hkj
          have hjq : k ∈ queueIds st := by
            unfold queueIds
            rw [hqe]
            exact List.mem_cons_self _ _
          have hjs := hqs k hjq
          have hmid : statusOf { update_status st k .downloading with
              queue := rest,
              running := st.running ++ [(k, request)],
              invoked := st.invoked ++ [k] } k =
              statusOf (update_status st k .downloading) k := rfl
          rw [hmid, statusOf_update_status_self, h1] at h2
          have hs' : s' = .downloading := (Option.some_inj.mp h2).symm
          subst hs'
          rcases hjs with hs | hs <;> rw [h1] at hs <;>
            rw [Option.some_inj.mp hs]
          · exact ⟨by decide, by decide⟩
          · exact ⟨by decide, by decide⟩
        · have hmid : statusOf { update_status st j .downloading with
              queue := rest,
              running := st.running ++ [(j, request)],
              invoked := st.invoked ++ [j] } k =
              statusOf (update_status st j .downloading) k := rfl
          have heq := hmid.trans (statusOf_update_status_ne st j k _ hkj)
          exact crank_of_statusOf_eq heq h1 h2
      · rw [if_neg hlt] at h2
        exact crank_of_statusOf_eq rfl h1 h2
  | hookFire download_id data =>
    simp only [step] at h2
    rcases hrg : alist_get st.running download_id with _ | request
    · rw [hrg] at h2
      exact crank_of_statusOf_eq rfl h1 h2
    · rw [hrg] at h2
      rcases hh : progress_hook data download_id with e | opu
      · rw [hh] at h2
        exact crank_of_statusOf_eq rfl h1 h2
      · rcases opu with _ | pu
        · rw [hh] at h2
          exact crank_of_statusOf_eq rfl h1 h2
        · rw [hh] at h2
          by_cases hkd : k = download_id
          · subst hkd
            have hir : k ∈ runningIds st := by
              unfold runningIds
              exact alist_get_isSome_mem _ _ (by simp [hrg])
            have hks := hrs k hir
            rw [statusOf_update_progress_self, h1] at h2
            have hs' : s' = pu.status := (Option.some_inj.mp h2).symm
            subst hs'
            obtain ⟨hpust, _, _⟩ :=
              progress_hook_ok_some data k pu hh
            rcases hks with hs | hs | hs <;> rw [h1] at hs <;>
              rw [Option.some_inj.mp hs] <;>
              rcases hpust with hp | hp <;> rw [hp]
            all_goals exact ⟨by decide, by decide⟩
          · exact crank_of_statusOf_eq
              (statusOf_update_progress_ne st _ k pu hkd) h1 h2
  | finishOk download_id output_file =>
    simp only [step] at h2
    rcases hrg : alist_get st.running download_id with _ | request
    · rw [hrg] at h2
      exact crank_of_statusOf_eq rfl h1 h2
    · rw [hrg] at h2
      dsimp only at h2
      by_cases hkd : k = download_id
      · subst hkd
        have hir : k ∈ runningIds st := by
          unfold runningIds
          exact alist_get_isSome_mem _ _ (by simp [hrg])
        have hks := hrs k hir
        have h2' : (alist_get (alist_upd (update_status st k
            .completed).downloads k
            (fun m => { m with output_file := some output_file,
                               file_name := some output_file,
                               completed_at := some st.now })) k).map
            (fun m => m.status) = some s' := h2
        rw [statusOf_finish_self st k .completed
          (fun m => { m with output_file := some output_file,
                             file_name := some output_file,
                             completed_at := some st.now })
          (fun m => rfl), h1] at h2'
        have hs' : s' = .completed := (Option.some_inj.mp h2').symm
        subst hs'
        rcases hks with hs | hs | hs <;> rw [h1] at hs <;>
          rw [Option.some_inj.mp hs]
        all_goals exact ⟨by decide, by decide⟩
      · have heq : (alist_get (alist_upd (update_status st download_id
            .completed).downloads download_id
            (fun m => { m with output_file := some output_file,
                               file_name := some output_file,
                               completed_at := some st.now })) k).map
            (fun m => m.status) = statusOf st k :=
          statusOf_finish_ne st download_id k .completed _ hkd
        have h2' : (alist_get (alist_upd (update_status st download_id
            .completed).downloads download_id
            (fun m => { m with output_file := some output_file,
                               file_name := some output_file,
                               completed_at := some st.now })) k).map
            (fun m => m.status) = some s' := h2
        rw [heq, h1] at h2'
        exact crank_of_eq (Option.some_inj.mp h2').symm
  | finishErr download_id message =>
    simp only [step] at h2
    rcases hrg : alist_get st.running download_id with _ | request
    · rw [hrg] at h2
      exact crank_of_statusOf_eq rfl h1 h2
    · rw [hrg] at h2
      dsimp only at h2
      by_cases hkd : k = download_id
      · subst hkd
        have hir : k ∈ runningIds st := by
          unfold runningIds
          exact alist_get_isSome_mem _ _ (by simp [hrg])
        have hks := hrs k hir
        have h2' : (alist_get (alist_upd (update_status st k
            .failed).downloads k
            (fun m => { m with error := some message,
                               completed_at := some st.now })) k).map
            (fun m => m.status) = some s' := h2
        rw [statusOf_finish_self st k .failed
          (fun m => { m with error := some message,
                             completed_at := some st.now })
          (fun m => rfl), h1] at h2'
        have hs' : s' = .failed := (Option.some_inj.mp h2').symm
        subst hs'
        rcases hks with hs | hs | hs <;> rw [h1] at hs <;>
          rw [Option.some_inj.mp hs]
        all_goals exact ⟨by decide, by decide⟩
      · have heq : (alist_get (alist_upd (update_status st download_id
            .failed).downloads download_id
            (fun m => { m with error := some message,
                               completed_at := some st.now })) k).map
            (fun m => m.status) = statusOf st k :=
          statusOf_finish_ne st download_id k .failed _ hkd
        have h2' : (alist_get (alist_upd (update_status st download_id
            .failed).downloads download_id
            (fun m => { m with error := some message,
                               completed_at := some st.now })) k).map
            (fun m => m.status) = some s' := h2
        rw [heq, h1] at h2'
        exact crank_of_eq (Option.some_inj.mp h2').symm

theorem crank_run (evs : List Ev) (st : SysState) (hG : GInv st)
    (k : Nat) (s s' : DownloadStatus)
    (h1 : statusOf st k = some s)
    (h2 : statusOf (run st evs) k = some s') :
    statusRank s ≤ statusRank s' ∧
    ((s = .completed ∨ s = .failed) → s' = s) := by
  induction evs generalizing st s with
  | nil =>
    have h2' : statusOf st k = some s' := h2
    rw [h1] at h2'
    exact crank_of_eq (Option.some_inj.mp h2').symm
  | cons ev evs ih =>
    have hmidSome : (alist_get (step st ev).downloads k).isSome :=
      step_isSome st ev k (statusOf_isSome st k s h1)
    rcases hmid : statusOf (step st ev) k with _ | s₁
    · exfalso
      rcases hg : alist_get (step st ev).downloads k with _ | m
      · rw [hg] at hmidSome
        simp at hmidSome
      · unfold statusOf at hmid
        rw [hg] at hmid
        simp at hmid
    · have hstep := crank_step st ev k s s₁ hG h1 hmid
      have hrest := ih (step st ev) (GInv_step st ev hG) s₁ hmid h2
      constructor
      · exact le_trans hstep.1 hrest.1
      · intro hterm
        have hs₁ : s₁ = s := hstep.2 hterm
        have hs' : s' = s₁ := hrest.2 (by rw [hs₁]; exact hterm)
        rw [hs', hs₁]

/-- Claim C2 (amended): along any trace of the system, a job's status never
returns to PENDING, COMPLETED and FAILED are immutable once reached, and
transitions are monotone in the coarse order pending <
downloading/processing/cancelled < completed/failed.  The fine chain of the
original claim fails: CANCELLED is not immutable (a cancelled pending job
is re-dispatched to DOWNLOADING, and a cancel during download is
overwritten by the worker's terminal write), and the extraction hook may
report DOWNLOADING again after PROCESSING when a job has several streams. -/
theorem C2_status_monotonic_amended (maxConcurrent : Nat)
    (evs more : List Ev) (download_id : Nat) (s s' : DownloadStatus)
    (h1 : statusOf (run (SysState.init maxConcurrent) evs) download_id =
      some s)
    (h2 : statusOf (run (SysState.init maxConcurrent) (evs ++ more))
      download_id = some s') :
    statusRank s ≤ statusRank s' ∧
    ((s = .completed ∨ s = .failed) → s' = s) := by
  have hrun : run (SysState.init maxConcurrent) (evs ++ more) =
      run (run (SysState.init maxConcurrent) evs) more := by
    unfold run
    exact List.foldl_append _ _ _ _
  rw [hrun] at h2
  exact crank_run more _ (GInv_run evs _ (GInv_init maxConcurrent))
    download_id s s' h1 h2

/-- Witness for C2_status_monotonic_amended: submission followed by worker
dispatch moves PENDING to DOWNLOADING, a rank-increasing move. -/
theorem C2_status_monotonic_amended_witness :
    statusRank .pending ≤ statusRank .downloading ∧
    ((DownloadStatus.pending = .completed ∨
      DownloadStatus.pending = .failed) →
      DownloadStatus.downloading = .pending) :=
  C2_status_monotonic_amended 3
    [.apiDownload ⟨"u", .video, none, some "best", none⟩ none] [.pickup] 0
    .pending .downloading (by decide) (by decide)
